import Mathlib

/-!
Verification development for the Protocol IR core of `ips-protodesc-code`.

Part 1 embeds the type registry (`src/protocol.py`, class `Protocol`): the
primitive types and built-in traits created in `Protocol.__init__`, the
`define_*` / `derive_type` constructor operations, and the expression
resolver `_parse_expression` with its helpers.

Python specifics and how they are modelled:

* The registry dictionaries `_types`, `_traits`, `_funcs` are modelled as
  insertion-ordered association lists (`insertA` replaces in place or
  appends, matching `dict` semantics).
* Python stores *object references* into the registry (a `Field`'s type, a
  `ThisExpression`'s type, a function's return type are pointers to
  registry-resident objects, mutated in place).  Registry entries are never
  replaced once defined (the duplicate check forbids redefinition), so
  object identity coincides with the registry name; references are
  therefore modelled by name, and in-place mutation by updating the map
  entry.
* Each type's `traits` and `methods` dictionaries are *mutable collections
  owned by the type object*; aliasing between them matters (shallow copies
  in `derive_type`).  They are modelled as heap cells: a type holds
  `traitsRef` / `methodsRef` indices into the cell stores of the state.
* A raised `TypeError` / `KeyError` aborts the call but keeps all mutations
  made before the raise: every operation returns the final state together
  with `Option Err` (`some` = exception raised, `none` = normal return).
* The module `protocoltypes.py` (type/expression classes, name regexes,
  `implement_trait`) is not part of the sources; definitions taken from it
  are marked "Modelled from the spec" in their doc comments.
-/

namespace ProtoIR

/-- Errors raised by the registry.  The Python code raises `TypeError` with
distinct messages (and `KeyError` from failed dict lookups); each raise
site becomes one constructor. -/
inductive Err
  | wrongConstruct (expected got : String)
  | alreadyExists (nm : String)
  | malformedName (nm : String)
  | fieldMalformedName (nm : String)
  | keyError (nm : String)
  | scopeError
  | unknownExpression (tag : String)
  | constraintNotBoolean (t : Option String)
  | actionNotNothing (t : Option String)
  | unimplemented (what : String)
deriving Repr, DecidableEq

/-- Insert into an insertion-ordered association list with Python `dict`
assignment semantics: replace in place if the key exists, append otherwise. -/
def insertA {κ α : Type} [BEq κ] (l : List (κ × α)) (k : κ) (a : α) : List (κ × α) :=
  match l with
  | [] => [(k, a)]
  | (k', b) :: rest => if k' == k then (k, a) :: rest else (k', b) :: insertA rest k a

/-- Update the value stored under a key, if present. -/
def updateA {κ α : Type} [BEq κ] (l : List (κ × α)) (k : κ) (f : α → α) : List (κ × α) :=
  match l with
  | [] => []
  | (k', a) :: rest => if k' == k then (k', f a) :: rest else (k', a) :: updateA rest k f

/-- A trait method signature: `Function(name, parameters, return_type)` from
`Protocol.__init__`; parameter and return types are registry names
(`None` becomes `none`). -/
structure MethodSig where
  name : String
  params : List (String × Option String)
  ret : Option String
deriving Repr, DecidableEq

/-- A trait: name plus method signatures (`Trait` of `protocoltypes`;
contents as constructed in `Protocol.__init__`, which is in the sources). -/
structure TraitDef where
  name : String
  methods : List MethodSig
deriving Repr, DecidableEq

/-- A literal payload of a `Constant` expression record (opaque to the
type checker, per the spec). -/
inductive Lit
  | str (s : String)
  | num (n : Int)
  | null
deriving Repr, DecidableEq

/-- A resolved function argument.  `Protocol._parse_arguments` builds
`Argument(name_, type_, None)`: the parsed expression is dropped and only
its static type is kept (the `FIXME: what is the value?` in the source). -/
structure Arg where
  name : String
  ty : Option String
deriving Repr, DecidableEq

/-- A resolved (typed) expression, mirroring the `*Expression` classes of
`protocoltypes` as built by `Protocol._parse_expression`.  Referenced
types and functions are registry-resident objects in Python, modelled by
their registry names (`thisExpr` stores the enclosing struct's name). -/
inductive Expr
  | methodInvocation (target : Expr) (method : String) (args : List Arg)
  | functionInvocation (funcName : String) (args : List Arg)
  | fieldAccess (target : Expr) (field : String)
  | contextAccess (field : String)
  | ifElse (cond ifTrue ifFalse : Expr)
  | thisExpr (typeName : String)
  | constant (typeName : String) (value : Lit)
deriving Repr

/-- A resolved transform: `Transform(into_name, into_type, using)`, with the
referenced type and function stored by registry name. -/
structure TransformV where
  intoName : String
  intoType : String
  usingFunc : String
deriving Repr

/-- A resolved struct field: `Field(name, type, is_present, transform)`;
the field's declared type is a registry reference, modelled by name. -/
structure FieldV where
  name : String
  ftype : String
  isPresent : Expr
  transform : Option TransformV
deriving Repr

/-- A registry type object.  One flat record covers every `Type` subclass of
`protocoltypes` (`kind` discriminates, unused components are empty):
`Nothing`/`Boolean`/`Size` primitives, `BitString(name, size)`,
`Array(name, element_type, length)` with its computed `size`,
`Struct(name)` with fields/constraints/actions added in place, and
`Enum(name, variants)`.  `traitsRef` / `methodsRef` point to the heap
cells holding the type's own mutable trait set and method table. -/
structure TypeV where
  name : String
  kind : String
  size : Option Nat
  elementType : Option String
  length : Option Nat
  fields : List FieldV
  constraints : List Expr
  actions : List Expr
  variants : List String
  traitsRef : Nat
  methodsRef : Nat
deriving Repr

/-- A registered free function: `Function(name, parameters, return_type)`
from `define_function`; parameter and return types by registry name. -/
structure FuncV where
  name : String
  params : List (String × String)
  ret : String
deriving Repr

/-- The `Protocol` object: the three registries plus the heap of trait-set
and method-table cells owned by the registered type objects. -/
structure PState where
  types : List (String × TypeV)
  traits : List (String × TraitDef)
  funcs : List (String × FuncV)
  traitCells : List (Nat × List String)
  methodCells : List (Nat × List MethodSig)
  nextRef : Nat
deriving Repr

/-- A fresh type object of the given name and kind with no structure and
its own (empty) trait/method cells. -/
def mkBare (nm kind : String) (tRef mRef : Nat) : TypeV :=
  { name := nm, kind := kind, size := none, elementType := none, length := none,
    fields := [], constraints := [], actions := [], variants := [],
    traitsRef := tRef, methodsRef := mRef }

instance : Inhabited TypeV := ⟨mkBare "" "" 0 0⟩

/-- Modelled from the spec: the character class of identifier tails (the
regexes `TYPE_NAME_REGEX` / `FUNC_NAME_REGEX` live in `protocoltypes.py`,
which is not in the sources; the spec fixes only that there are two
lexical classes of identifiers). -/
def isIdentTail (c : Char) : Bool :=
  c.isAlpha || c.isDigit || c == '_' || c == '$'

/-- Modelled from the spec: the lexical validator for type names — an
uppercase letter followed by identifier characters. -/
def isTypeName (nm : String) : Bool :=
  match nm.toList with
  | [] => false
  | c :: rest => c.isUpper && rest.all isIdentTail

/-- Modelled from the spec: the lexical validator for function (and field)
names — a lowercase letter followed by identifier characters. -/
def isFuncName (nm : String) : Bool :=
  match nm.toList with
  | [] => false
  | c :: rest => c.isLower && rest.all isIdentTail

/-- `Protocol._validate_irtype`: construct discriminator check, then the
duplicate-name check against `_types`, then the lexical check — in that
source order. -/
def validateIR (s : PState) (construct kind nm : String) : Option Err :=
  if construct ≠ kind then some (.wrongConstruct kind construct)
  else if (s.types.lookup nm).isSome then some (.alreadyExists nm)
  else if ¬ isTypeName nm then some (.malformedName nm)
  else none

/-- Add a trait name to a trait-set cell (dict keyed by trait name: a
second insertion of the same trait is a no-op on the key set). -/
def insertTraitName (cell : List String) (t : String) : List String :=
  if t ∈ cell then cell else cell ++ [t]

/-- Insert a method signature into a method-table cell keyed by method
name (dict assignment: replace in place or append). -/
def insertMethod (cell : List MethodSig) (m : MethodSig) : List MethodSig :=
  match cell with
  | [] => [m]
  | c :: rest => if c.name == m.name then m :: rest else c :: insertMethod rest m

/-- Modelled from the spec: `Type.implement_trait` (in the missing
`protocoltypes.py`) records the trait in the type's own trait set and
copies the trait's method signatures into the type's own method table —
it mutates only the collections owned by the receiving type object. -/
def implementTrait (s : PState) (ty : TypeV) (tr : TraitDef) : PState :=
  { s with
    traitCells := updateA s.traitCells ty.traitsRef (fun cell => insertTraitName cell tr.name),
    methodCells := updateA s.methodCells ty.methodsRef (fun cell => tr.methods.foldl insertMethod cell) }

/-- The type object registered under a name (callers establish presence). -/
def typeVAt (s : PState) (nm : String) : TypeV :=
  (s.types.lookup nm).getD default

/-- Run `self._types[name].implement_trait(self.trait(n))` for each trait
name in turn; a missing trait raises `KeyError` (`self.trait` is a plain
dict lookup), keeping the mutations already made. -/
def implementTraits (s : PState) (tyName : String) : List String → PState × Option Err
  | [] => (s, none)
  | n :: rest =>
    match s.traits.lookup n with
    | none => (s, some (.keyError n))
    | some tr => implementTraits (implementTrait s (typeVAt s tyName) tr) tyName rest

/-- Register a freshly built type object together with its two fresh heap
cells (the object's `traits` / `methods` dictionaries start empty). -/
def addType (s : PState) (nm : String) (t : TypeV) : PState :=
  { s with
    types := insertA s.types nm t,
    traitCells := insertA s.traitCells t.traitsRef [],
    methodCells := insertA s.methodCells t.methodsRef [],
    nextRef := s.nextRef + 2 }

mutual
/-- An expression input record, keyed by its `expression` discriminator
(section 6 of the spec); `other` covers unrecognized discriminators, which
`_parse_expression` rejects. -/
inductive IRExpr
  | methodInvocation (target : IRExpr) (method : String) (args : IRArgs)
  | functionInvocation (name : String) (args : IRArgs)
  | fieldAccess (target : IRExpr) (field : String)
  | contextAccess (field : String)
  | ifElse (cond ifTrue ifFalse : IRExpr)
  | thisE
  | constant (type : String) (value : Lit)
  | other (tag : String)

/-- The `arguments` list of an invocation record: `[..., {name, value}, ...]`. -/
inductive IRArgs
  | nil
  | cons (name : String) (value : IRExpr) (rest : IRArgs)
end

/-- A `transform` input record: `{into_name, into_type, using}`. -/
structure TransformIR where
  intoName : String
  intoType : String
  usingFunc : String

/-- A struct field input record: `{name, type, is_present, transform|null}`. -/
structure FieldIR where
  name : String
  ftype : String
  isPresent : IRExpr
  transform : Option TransformIR

/-- The `BitString` type-constructor record. -/
structure BitStringIR where
  construct : String
  name : String
  size : Nat

/-- The `Array` type-constructor record. -/
structure ArrayIR where
  construct : String
  name : String
  elementType : String
  length : Nat

/-- The `Struct` type-constructor record. -/
structure StructIR where
  construct : String
  name : String
  fields : List FieldIR
  constraints : List IRExpr
  actions : List IRExpr

/-- The `Enum` type-constructor record (`variants` is the list of the
`type` entries of the variant records). -/
structure EnumIR where
  construct : String
  name : String
  variants : List String

/-- The `NewType` type-constructor record (`implements` is the list of the
`trait` entries). -/
structure NewTypeIR where
  construct : String
  name : String
  derivedFrom : String
  implements : List String

/-- The `Function` type-constructor record. -/
structure FunctionIR where
  construct : String
  name : String
  parameters : List (String × String)
  returnType : String

/-- Modelled from the spec: the static type of a resolved expression, by
registry name (spec section 4.2) — the `type()` methods of the expression
classes live in `protocoltypes.py`, which is not in the sources.  `none`
is Python's `None` (a
method or function signature with no declared return type) and also
stands for the cases where `type()` cannot produce a type (context access,
a missing method or field): any such result compares unequal to `Boolean`
and `Nothing` exactly as in Python. -/
def exprType (s : PState) : Expr → Option String
  | .methodInvocation target m _ =>
    match exprType s target with
    | none => none
    | some tn =>
      match s.types.lookup tn with
      | none => none
      | some ty =>
        match s.methodCells.lookup ty.methodsRef with
        | none => none
        | some ms =>
          match ms.find? (fun sig => sig.name == m) with
          | none => none
          | some sig => sig.ret
  | .functionInvocation fn _ => (s.funcs.lookup fn).map (fun f => f.ret)
  | .fieldAccess target fld =>
    match exprType s target with
    | none => none
    | some tn =>
      match s.types.lookup tn with
      | none => none
      | some ty =>
        if ty.kind == "Struct" then
          match ty.fields.find? (fun f => f.name == fld) with
          | none => none
          | some f => some f.ftype
        else none
  | .contextAccess _ => none
  | .ifElse _ ifTrue _ => exprType s ifTrue
  | .thisExpr tn => some tn
  | .constant tn _ => some tn

mutual
/-- `Protocol._parse_expression`: the scope check (`this` must be a
structure type) guards every call, including recursive ones; each
discriminator builds the corresponding typed expression, resolving
function and type references against the registry (a missing name is a
`KeyError` from `self.func` / `self.type`). -/
def parseExpression (s : PState) (this : TypeV) (e : IRExpr) : Except Err Expr :=
  if this.kind ≠ "Struct" then .error .scopeError
  else
    match e with
    | .methodInvocation target m args => do
        let t ← parseExpression s this target
        let args' ← parseArguments s this args
        pure (.methodInvocation t m args')
    | .functionInvocation fn args =>
        match s.funcs.lookup fn with
        | none => .error (.keyError fn)
        | some _ => do
            let args' ← parseArguments s this args
            pure (.functionInvocation fn args')
    | .fieldAccess target fld => do
        let t ← parseExpression s this target
        pure (.fieldAccess t fld)
    | .contextAccess fld => pure (.contextAccess fld)
    | .ifElse c t f => do
        let c' ← parseExpression s this c
        let t' ← parseExpression s this t
        let f' ← parseExpression s this f
        pure (.ifElse c' t' f')
    | .thisE => pure (.thisExpr this.name)
    | .constant tn v =>
        match s.types.lookup tn with
        | none => .error (.keyError tn)
        | some _ => pure (.constant tn v)
    | .other tag => .error (.unknownExpression tag)

/-- `Protocol._parse_arguments`: each argument's value expression is
resolved, its static type taken, and an `Argument(name, type, None)`
recorded (the expression itself is dropped by the source). -/
def parseArguments (s : PState) (this : TypeV) (args : IRArgs) : Except Err (List Arg) :=
  match args with
  | .nil => pure []
  | .cons n v rest => do
      let e ← parseExpression s this v
      let rest' ← parseArguments s this rest
      pure ({ name := n, ty := exprType s e } :: rest')
end

/-- `Protocol._parse_transform`: resolve the target type and the
transforming function (plain registry lookups, `KeyError` when absent). -/
def parseTransform (s : PState) : Option TransformIR → Except Err (Option TransformV)
  | none => pure none
  | some tr =>
    match s.types.lookup tr.intoType with
    | none => .error (.keyError tr.intoType)
    | some _ =>
      match s.funcs.lookup tr.usingFunc with
      | none => .error (.keyError tr.usingFunc)
      | some _ => pure (some { intoName := tr.intoName, intoType := tr.intoType, usingFunc := tr.usingFunc })

/-- `Protocol._parse_fields`: validate each field name against the function
identifier pattern, resolve the field's declared type (`self.type`,
`KeyError` when absent), resolve the presence expression and optional
transform, and build the `Field` records in order. -/
def parseFields (s : PState) (this : TypeV) : List FieldIR → Except Err (List FieldV)
  | [] => pure []
  | f :: rest =>
    if ¬ isFuncName f.name then .error (.fieldMalformedName f.name)
    else
      match s.types.lookup f.ftype with
      | none => .error (.keyError f.ftype)
      | some _ => do
        let ip ← parseExpression s this f.isPresent
        let tr ← parseTransform s f.transform
        let tail ← parseFields s this rest
        pure ({ name := f.name, ftype := f.ftype, isPresent := ip, transform := tr } :: tail)

/-- `Protocol._parse_constraints`: resolve each constraint and require its
static type to be the registry's `Boolean` (the comparison
`expr.type() != self.type("Boolean")` is an object comparison against the
registry-resident `Boolean`, which by-name modelling renders as a name
comparison; `self.type("Boolean")` itself is a lookup that raises
`KeyError` if `Boolean` were absent). -/
def parseConstraints (s : PState) (this : TypeV) : List IRExpr → Except Err (List Expr)
  | [] => pure []
  | c :: rest => do
    let e ← parseExpression s this c
    match s.types.lookup "Boolean" with
    | none => .error (.keyError "Boolean")
    | some _ =>
      if exprType s e ≠ some "Boolean" then .error (.constraintNotBoolean (exprType s e))
      else do
        let tail ← parseConstraints s this rest
        pure (e :: tail)

/-- `Protocol._parse_actions`: resolve each action and require its static
type to be the registry's `Nothing`. -/
def parseActions (s : PState) (this : TypeV) : List IRExpr → Except Err (List Expr)
  | [] => pure []
  | a :: rest => do
    let e ← parseExpression s this a
    match s.types.lookup "Nothing" with
    | none => .error (.keyError "Nothing")
    | some _ =>
      if exprType s e ≠ some "Nothing" then .error (.actionNotNothing (exprType s e))
      else do
        let tail ← parseActions s this rest
        pure (e :: tail)

/-- `Protocol._parse_variants`: resolve each variant's type (`self.type`,
`KeyError` when absent); variants are registry references, kept by name. -/
def parseVariants (s : PState) : List String → Except Err (List String)
  | [] => pure []
  | v :: rest =>
    match s.types.lookup v with
    | none => .error (.keyError v)
    | some _ => do
      let tail ← parseVariants s rest
      pure (v :: tail)

/-- `Protocol._parse_parameters`: resolve each parameter's type
(`self.type`, `KeyError` when absent). -/
def parseParameters (s : PState) : List (String × String) → Except Err (List (String × String))
  | [] => pure []
  | (n, t) :: rest =>
    match s.types.lookup t with
    | none => .error (.keyError t)
    | some _ => do
      let tail ← parseParameters s rest
      pure ((n, t) :: tail)

/-- `Protocol.define_bitstring`: validate, register the new `BitString`
object, then implement `Sized`, `Value`, `Equality` on it. -/
def bitStringTypeV (s : PState) (ir : BitStringIR) : TypeV :=
  { mkBare ir.name "BitString" s.nextRef (s.nextRef + 1) with size := some ir.size }

def defineBitString (s : PState) (ir : BitStringIR) : PState × Option Err :=
  match validateIR s ir.construct "BitString" ir.name with
  | some e => (s, some e)
  | none =>
    implementTraits (addType s ir.name (bitStringTypeV s ir)) ir.name ["Sized", "Value", "Equality"]

/-- `Protocol.define_array`: validate, fetch the element type directly from
`_types` (`KeyError` when absent), register the new `Array` object, then
implement `Sized`, `Equality`, `IndexCollection`.  The array's `size`
(computed by the `Array` constructor in the missing `protocoltypes.py`) is
modelled from the spec: `element.size * length` when the element's size is
defined (see `arrayTypeV`). -/
def arrayTypeV (s : PState) (ir : ArrayIR) (et : TypeV) : TypeV :=
  { mkBare ir.name "Array" s.nextRef (s.nextRef + 1) with
    size := et.size.map (fun n => n * ir.length),
    elementType := some ir.elementType,
    length := some ir.length }

def defineArray (s : PState) (ir : ArrayIR) : PState × Option Err :=
  match validateIR s ir.construct "Array" ir.name with
  | some e => (s, some e)
  | none =>
    match s.types.lookup ir.elementType with
    | none => (s, some (.keyError ir.elementType))
    | some et =>
      implementTraits (addType s ir.name (arrayTypeV s ir et)) ir.name
        ["Sized", "Equality", "IndexCollection"]

/-- The bare `Struct(name)` object inserted by `define_struct` before any
field, constraint or action is parsed. -/
def structShell (s : PState) (nm : String) : TypeV :=
  mkBare nm "Struct" s.nextRef (s.nextRef + 1)

/-- The registry right after `self._types[name] = Struct(irobj["name"])`:
the bare struct is visible under its own name while fields, constraints
and actions are still being resolved. -/
def structS1 (s : PState) (nm : String) : PState :=
  addType s nm (structShell s nm)

/-- The `add_field` loop of `define_struct`: append the parsed fields to
the registered struct object, in place. -/
def withFields (st : PState) (nm : String) (fs : List FieldV) : PState :=
  { st with types := updateA st.types nm (fun t => { t with fields := t.fields ++ fs }) }

/-- The `add_constraint` loop of `define_struct`. -/
def withConstraints (st : PState) (nm : String) (cs : List Expr) : PState :=
  { st with types := updateA st.types nm (fun t => { t with constraints := t.constraints ++ cs }) }

/-- The `add_action` loop of `define_struct`. -/
def withActions (st : PState) (nm : String) (as_ : List Expr) : PState :=
  { st with types := updateA st.types nm (fun t => { t with actions := t.actions ++ as_ }) }

/-- `Protocol.define_struct`: validate, insert the bare `Struct` object
into `_types`, then parse and add the fields, then the constraints, then
the actions, and finally implement `Sized` and `Equality`.  Each parsing
phase receives `self._types[name]` — the current map entry — as the
enclosing type; the values passed below are those entries spelled out
(the shell, then the shell with its fields, then also with constraints).
An error raised in any phase keeps everything registered so far —
including the new (partial) struct entry. -/
def defineStruct (s : PState) (ir : StructIR) : PState × Option Err :=
  match validateIR s ir.construct "Struct" ir.name with
  | some e => (s, some e)
  | none =>
    match parseFields (structS1 s ir.name) (structShell s ir.name) ir.fields with
    | .error e => (structS1 s ir.name, some e)
    | .ok fs =>
      match parseConstraints (withFields (structS1 s ir.name) ir.name fs)
          { structShell s ir.name with fields := fs } ir.constraints with
      | .error e => (withFields (structS1 s ir.name) ir.name fs, some e)
      | .ok cs =>
        match parseActions (withConstraints (withFields (structS1 s ir.name) ir.name fs) ir.name cs)
            { structShell s ir.name with fields := fs, constraints := cs } ir.actions with
        | .error e => (withConstraints (withFields (structS1 s ir.name) ir.name fs) ir.name cs, some e)
        | .ok as_ =>
          implementTraits
            (withActions (withConstraints (withFields (structS1 s ir.name) ir.name fs) ir.name cs) ir.name as_)
            ir.name ["Sized", "Equality"]

/-- `Protocol.define_enum`: validate, resolve the variants (before the new
type is registered), register the new `Enum` object, then implement
`Sized`. -/
def defineEnum (s : PState) (ir : EnumIR) : PState × Option Err :=
  match validateIR s ir.construct "Enum" ir.name with
  | some e => (s, some e)
  | none =>
    match parseVariants s ir.variants with
    | .error e => (s, some e)
    | .ok vs =>
      implementTraits
        (addType s ir.name { mkBare ir.name "Enum" s.nextRef (s.nextRef + 1) with variants := vs })
        ir.name ["Sized"]

/-- The copying step of `derive_type`: register under the new name a copy
of the base type object whose `name` is replaced and whose `traits` /
`methods` are fresh cells holding copies of the base's collections
(`copy(orig_type)` followed by the `traits` and `methods` reassignment to
`copy(orig_type.traits)` / `copy(orig_type.methods)`). -/
def deriveBase (s : PState) (nm : String) (orig : TypeV) : PState :=
  { s with
    types := insertA s.types nm
      { orig with name := nm, traitsRef := s.nextRef, methodsRef := s.nextRef + 1 },
    traitCells := insertA s.traitCells s.nextRef ((s.traitCells.lookup orig.traitsRef).getD []),
    methodCells := insertA s.methodCells (s.nextRef + 1) ((s.methodCells.lookup orig.methodsRef).getD []),
    nextRef := s.nextRef + 2 }

/-- `Protocol.derive_type`: validate, resolve the base type (`self.type`,
`KeyError` when absent), register the renamed copy with independently
owned trait/method collections, then implement each requested trait; an
unknown trait raises after the new entry is already registered. -/
def deriveType (s : PState) (ir : NewTypeIR) : PState × Option Err :=
  match validateIR s ir.construct "NewType" ir.name with
  | some e => (s, some e)
  | none =>
    match s.types.lookup ir.derivedFrom with
    | none => (s, some (.keyError ir.derivedFrom))
    | some orig => implementTraits (deriveBase s ir.name orig) ir.name ir.implements

/-- `Protocol.define_function`: construct check, duplicate check against
`_funcs`, lexical check (in that source order), then parameter and return
type resolution — all before the function is registered. -/
def defineFunction (s : PState) (ir : FunctionIR) : PState × Option Err :=
  if ir.construct ≠ "Function" then (s, some (.wrongConstruct "Function" ir.construct))
  else if (s.funcs.lookup ir.name).isSome then (s, some (.alreadyExists ir.name))
  else if ¬ isFuncName ir.name then (s, some (.malformedName ir.name))
  else
    match parseParameters s ir.parameters with
    | .error e => (s, some e)
    | .ok ps =>
      match s.types.lookup ir.returnType with
      | none => (s, some (.keyError ir.returnType))
      | some _ =>
        ({ s with funcs := insertA s.funcs ir.name { name := ir.name, params := ps, ret := ir.returnType } }, none)

/-- `Protocol.define_context`: unimplemented in the source; always raises. -/
def defineContext (s : PState) : PState × Option Err :=
  (s, some (.unimplemented "define_context"))

/-- The built-in `Value` trait (`Protocol.__init__`). -/
def valueTrait : TraitDef :=
  { name := "Value", methods := [
      { name := "get", params := [("self", none)], ret := none },
      { name := "set", params := [("self", none), ("value", none)], ret := none } ] }

/-- The built-in `Sized` trait. -/
def sizedTrait : TraitDef :=
  { name := "Sized", methods := [
      { name := "size", params := [("self", none)], ret := some "Size" } ] }

/-- The built-in `IndexCollection` trait. -/
def indexCollectionTrait : TraitDef :=
  { name := "IndexCollection", methods := [
      { name := "get", params := [("self", none), ("index", some "Size")], ret := none },
      { name := "set", params := [("self", none), ("index", some "Size"), ("value", none)], ret := none },
      { name := "length", params := [("self", none)], ret := some "Size" } ] }

/-- The built-in `Equality` trait. -/
def equalityTrait : TraitDef :=
  { name := "Equality", methods := [
      { name := "eq", params := [("self", none), ("other", none)], ret := some "Boolean" },
      { name := "ne", params := [("self", none), ("other", none)], ret := some "Boolean" } ] }

/-- The built-in `Ordinal` trait. -/
def ordinalTrait : TraitDef :=
  { name := "Ordinal", methods := [
      { name := "lt", params := [("self", none), ("other", none)], ret := some "Boolean" },
      { name := "le", params := [("self", none), ("other", none)], ret := some "Boolean" },
      { name := "gt", params := [("self", none), ("other", none)], ret := some "Boolean" },
      { name := "ge", params := [("self", none), ("other", none)], ret := some "Boolean" } ] }

/-- The built-in `BooleanOps` trait. -/
def booleanOpsTrait : TraitDef :=
  { name := "BooleanOps", methods := [
      { name := "and", params := [("self", none), ("other", none)], ret := some "Boolean" },
      { name := "or", params := [("self", none), ("other", none)], ret := some "Boolean" },
      { name := "not", params := [("self", none)], ret := some "Boolean" } ] }

/-- The built-in `ArithmeticOps` trait (`multiply`, `divide` and `modulo`
take only `self` in the source). -/
def arithmeticOpsTrait : TraitDef :=
  { name := "ArithmeticOps", methods := [
      { name := "plus", params := [("self", none), ("other", none)], ret := none },
      { name := "minus", params := [("self", none), ("other", none)], ret := none },
      { name := "multiply", params := [("self", none)], ret := none },
      { name := "divide", params := [("self", none)], ret := none },
      { name := "modulo", params := [("self", none)], ret := none } ] }

/-- `Protocol.__init__`: the primitive types `Nothing`, `Boolean`, `Size`
(each owning fresh trait/method cells), the seven built-in traits in
definition order, and the standard trait implementations on `Boolean` and
`Size`; `_funcs` starts empty. -/
def mkProtocol : PState :=
  let s0 : PState := {
    types := [
      ("Nothing", mkBare "Nothing" "Nothing" 0 1),
      ("Boolean", mkBare "Boolean" "Boolean" 2 3),
      ("Size", mkBare "Size" "Size" 4 5) ],
    traits := [
      ("Value", valueTrait),
      ("Sized", sizedTrait),
      ("IndexCollection", indexCollectionTrait),
      ("Equality", equalityTrait),
      ("Ordinal", ordinalTrait),
      ("BooleanOps", booleanOpsTrait),
      ("ArithmeticOps", arithmeticOpsTrait) ],
    funcs := [],
    traitCells := [(0, []), (2, []), (4, [])],
    methodCells := [(1, []), (3, []), (5, [])],
    nextRef := 6 }
  let s1 := implementTrait s0 (typeVAt s0 "Boolean") valueTrait
  let s2 := implementTrait s1 (typeVAt s1 "Boolean") equalityTrait
  let s3 := implementTrait s2 (typeVAt s2 "Boolean") booleanOpsTrait
  let s4 := implementTrait s3 (typeVAt s3 "Size") valueTrait
  let s5 := implementTrait s4 (typeVAt s4 "Size") equalityTrait
  let s6 := implementTrait s5 (typeVAt s5 "Size") ordinalTrait
  implementTrait s6 (typeVAt s6 "Size") arithmeticOpsTrait

/-! Association-list lemmas shared by the proofs. -/

theorem lookup_insertA_self {κ α : Type} [BEq κ] [LawfulBEq κ]
    (l : List (κ × α)) (k : κ) (a : α) : (insertA l k a).lookup k = some a := by
  induction l with
  | nil => simp [insertA, List.lookup]
  | cons p rest ih =>
    obtain ⟨k', b⟩ := p
    by_cases h : k' = k
    · subst h; simp [insertA, List.lookup]
    · have hb : (k' == k) = false := beq_eq_false_iff_ne.mpr h
      have hb' : (k == k') = false := beq_eq_false_iff_ne.mpr (Ne.symm h)
      simp [insertA, hb, List.lookup, hb', ih]

theorem lookup_insertA_ne {κ α : Type} [BEq κ] [LawfulBEq κ]
    (l : List (κ × α)) (k k' : κ) (a : α) (h : k' ≠ k) :
    (insertA l k a).lookup k' = l.lookup k' := by
  induction l with
  | nil => simp [insertA, List.lookup, beq_eq_false_iff_ne.mpr h]
  | cons p rest ih =>
    obtain ⟨k0, b⟩ := p
    by_cases h0 : k0 = k
    · subst h0
      simp [insertA, List.lookup, beq_eq_false_iff_ne.mpr h]
    · have hb : (k0 == k) = false := beq_eq_false_iff_ne.mpr h0
      by_cases h1 : k' = k0
      · subst h1; simp [insertA, hb, List.lookup]
      · simp [insertA, hb, List.lookup, beq_eq_false_iff_ne.mpr h1, ih]

theorem lookup_updateA_ne {κ α : Type} [BEq κ] [LawfulBEq κ]
    (l : List (κ × α)) (k k' : κ) (f : α → α) (h : k' ≠ k) :
    (updateA l k f).lookup k' = l.lookup k' := by
  induction l with
  | nil => simp [updateA]
  | cons p rest ih =>
    obtain ⟨k0, b⟩ := p
    by_cases h0 : k0 = k
    · subst h0
      simp [updateA, List.lookup, beq_eq_false_iff_ne.mpr h]
    · have hb : (k0 == k) = false := beq_eq_false_iff_ne.mpr h0
      by_cases h1 : k' = k0
      · subst h1; simp [updateA, hb, List.lookup]
      · simp [updateA, hb, List.lookup, beq_eq_false_iff_ne.mpr h1, ih]

theorem lookup_updateA_self {κ α : Type} [BEq κ] [LawfulBEq κ]
    (l : List (κ × α)) (k : κ) (f : α → α) (a : α) (h : l.lookup k = some a) :
    (updateA l k f).lookup k = some (f a) := by
  induction l with
  | nil => simp [List.lookup] at h
  | cons p rest ih =>
    obtain ⟨k0, b⟩ := p
    by_cases h0 : k0 = k
    · subst h0
      simp [List.lookup] at h
      subst h
      simp [updateA, List.lookup]
    · have hb : (k0 == k) = false := beq_eq_false_iff_ne.mpr h0
      have hb' : (k == k0) = false := beq_eq_false_iff_ne.mpr (Ne.symm h0)
      simp [List.lookup, hb'] at h
      simp [updateA, hb, List.lookup, hb', ih h]

theorem lookup_insertA_isSome {κ α : Type} [BEq κ] [LawfulBEq κ]
    (l : List (κ × α)) (k k' : κ) (a : α) (h : (l.lookup k').isSome) :
    ((insertA l k a).lookup k').isSome := by
  by_cases hk : k' = k
  · subst hk; simp [lookup_insertA_self]
  · rw [lookup_insertA_ne l k k' a hk]; exact h

theorem mem_of_lookup_eq_some {κ α : Type} [BEq κ] [LawfulBEq κ]
    {l : List (κ × α)} {k : κ} {a : α} (h : l.lookup k = some a) : (k, a) ∈ l := by
  induction l with
  | nil => simp [List.lookup] at h
  | cons p rest ih =>
    obtain ⟨k0, b⟩ := p
    by_cases h0 : k = k0
    · subst h0
      simp [List.lookup] at h
      subst h
      exact List.mem_cons_self _ _
    · simp [List.lookup, beq_eq_false_iff_ne.mpr h0] at h
      exact List.mem_cons_of_mem _ (ih h)

theorem mem_insertTraitName (cell : List String) (t x : String) :
    x ∈ insertTraitName cell t ↔ x ∈ cell ∨ x = t := by
  by_cases h : t ∈ cell
  · simp only [insertTraitName, if_pos h]
    constructor
    · exact Or.inl
    · rintro (hx | rfl)
      · exact hx
      · exact h
  · simp [insertTraitName, if_neg h, List.mem_append]

end ProtoIR

/-!
Part 2 embeds the dependency resolver of `src/parse-ietf-doc.py`
(`dfs_struct`, `dfs_array`, `dfs_enum`, `dfs_function`, `dfs_protocoltype`,
`dfs_protocol`).  These functions traverse the protocol's object graph: a
struct's fields, an array's element, an enum's variants and its
parse-from/serialise-to references, a function's parameters and return
type.  The graph may be cyclic, so nodes reference each other by name and
the traversal resolves names against an environment (the protocol's type
registry); traversal depth is bounded by a fuel parameter, and running out
of fuel at every fuel value is the embedding of non-termination.
`Context` does not occur: `Protocol.define_context` unconditionally raises,
so no built protocol contains a `Context` node. -/

namespace ProtoDFS

/-- Modelled from the spec: a node of the protocol's type-reference graph,
as traversed by the resolver — the newer protocol module whose `Struct`,
`Array`, `Enum`, `Function` objects (with `field_type`, `element_type`,
`parse_from`, `serialise_to`, `param_type`, `return_type`) the traversal
reads is not in the sources; the node shapes follow spec section 4.5 and
the attribute accesses in `parse-ietf-doc.py`.  Kinds without a dedicated
branch in `dfs_protocoltype` (bit strings and the primitives) are leaves,
represented by `bitString`. -/
inductive PTy
  | bitString (name : String)
  | struct (name : String) (fieldTypes : List String)
  | array (name : String) (elementType : String)
  | enumTy (name : String) (variants : List String) (parseFrom serialiseTo : Option String)
  | funcTy (name : String) (paramTypes : List String) (returnType : String)
deriving Repr, DecidableEq

/-- The `name` attribute appended to `type_names`. -/
def PTy.nameOf : PTy → String
  | .bitString n => n
  | .struct n _ => n
  | .array n _ => n
  | .enumTy n _ _ _ => n
  | .funcTy n _ _ => n

/-- The protocol's types, keyed by name (the registry the object graph
lives in). -/
abbrev Env := List (String × PTy)

/-- Resolve a type reference. -/
def lookupTy (env : Env) (n : String) : Option PTy := env.lookup n

/-- Modelled from the spec: the names a node references — a struct's field
types, an array's element type, an enum's variants and its
parse-from/serialise-to conversions, a function's parameter types and
return type (spec section 4.5). -/
def succs : PTy → List String
  | .bitString _ => []
  | .struct _ fs => fs
  | .array _ e => [e]
  | .enumTy _ vs pf st => vs ++ pf.toList ++ st.toList
  | .funcTy _ ps r => ps ++ [r]

mutual
/-- `dfs_protocoltype` with explicit fuel: one unit of fuel is spent per
visited node; `none` means the fuel ran out (the embedding of Python's
unbounded recursion).  A `None` reference (`pt is None`, e.g. an absent
`parse_from`) returns without appending.  Every other node is processed
by its branch and then has its name appended
(`type_names.append(pt.name)`) — note that an enum's name is appended a
second time here, after `dfs_enum` already appended it. -/
def dfsPT (env : Env) : Nat → Option PTy → List String → Option (List String)
  | 0, _, _ => none
  | _ + 1, Option.none, acc => some acc
  | fuel + 1, some pt, acc =>
    match pt with
    | .bitString n => some (acc ++ [n])
    | .struct n fs => (dfsList env fuel fs acc).map (fun acc1 => acc1 ++ [n])
    | .array n e => (dfsPT env fuel (lookupTy env e) acc).map (fun acc1 => acc1 ++ [n])
    | .enumTy n vs pf st =>
      (dfsList env fuel vs acc).bind (fun acc1 =>
        (dfsPT env fuel (pf.bind (lookupTy env)) (acc1 ++ [n])).bind (fun acc2 =>
          (dfsPT env fuel (st.bind (lookupTy env)) acc2).map (fun acc3 => acc3 ++ [n])))
    | .funcTy n ps r =>
      (dfsParams env fuel ps acc).bind (fun acc1 =>
        (if r ∈ acc1 then some acc1 else dfsPT env fuel (lookupTy env r) acc1).map
          (fun acc2 => acc2 ++ [n]))

/-- The loops of `dfs_struct` and of `dfs_enum`'s variants: visit each
referenced type in order, threading `type_names`. -/
def dfsList (env : Env) : Nat → List String → List String → Option (List String)
  | _, [], acc => some acc
  | fuel, t :: ts, acc =>
    (dfsPT env fuel (lookupTy env t) acc).bind (fun acc1 => dfsList env fuel ts acc1)

/-- The parameter loop of `dfs_function`: a parameter type whose name is
already in `type_names` is skipped entirely. -/
def dfsParams (env : Env) : Nat → List String → List String → Option (List String)
  | _, [], acc => some acc
  | fuel, p :: ps, acc =>
    if p ∈ acc then dfsParams env fuel ps acc
    else (dfsPT env fuel (lookupTy env p) acc).bind (fun acc1 => dfsParams env fuel ps acc1)
end

/-- The root loop of `dfs_protocol`: visit each PDU in order. -/
def dfsRoots (env : Env) (fuel : Nat) : List String → List String → Option (List String)
  | [], acc => some acc
  | r :: rs, acc =>
    (dfsPT env fuel (lookupTy env r) acc).bind (fun acc1 => dfsRoots env fuel rs acc1)

/-- The deduplication pass of `dfs_protocol`: keep each name's first
occurrence, in order. -/
def dedupe (l : List String) : List String :=
  l.foldl (fun acc n => if n ∈ acc then acc else acc ++ [n]) []

/-- `dfs_protocol`: traverse every PDU root into a fresh `type_names`
list, then deduplicate. -/
def dfsProtocol (env : Env) (fuel : Nat) (roots : List String) : Option (List String) :=
  (dfsRoots env fuel roots []).map dedupe

/-- C2: for the protocol whose PDU root `A` is a struct with a field of
type `B`, where `B` is a struct with a field of type `C` and `C` has no
further dependencies, dependency resolution returns `[C, B, A]` — each
name exactly once, `C` before `B` and `B` before `A` (post-order with
final first-occurrence deduplication). -/
theorem c2_transitive_postorder (A B C : String) (hAB : A ≠ B) (hAC : A ≠ C) (hBC : B ≠ C) :
    ∃ l, dfsProtocol [(A, .struct A [B]), (B, .struct B [C]), (C, .bitString C)] 3 [A]
        = some l ∧
      l = [C, B, A] ∧ l.count C = 1 ∧ l.count B = 1 ∧ l.count A = 1 := by
  have hba : (B == A) = false := beq_eq_false_iff_ne.mpr (Ne.symm hAB)
  have hca : (C == A) = false := beq_eq_false_iff_ne.mpr (Ne.symm hAC)
  have hcb : (C == B) = false := beq_eq_false_iff_ne.mpr (Ne.symm hBC)
  refine ⟨[C, B, A], ?_, rfl, ?_, ?_, ?_⟩
  · simp only [dfsProtocol, dfsRoots, dfsPT, dfsList, lookupTy, List.lookup, beq_self_eq_true,
      hba, hca, hcb, dedupe, List.foldl]
    simp [dedupe, hAB, hAC, hBC, Ne.symm hAB, Ne.symm hAC, Ne.symm hBC]
  · simp [List.count_cons, hBC, Ne.symm hBC, hAC, Ne.symm hAC, hAB, Ne.symm hAB]
  · simp [List.count_cons, hBC, Ne.symm hBC, hAC, Ne.symm hAC, hAB, Ne.symm hAB]
  · simp [List.count_cons, hBC, Ne.symm hBC, hAC, Ne.symm hAC, hAB, Ne.symm hAB]

/-- The traversal of the concrete three-type chain, computed once and
shared by the concrete instantiations below (`dfsPT` is compiled by
well-founded recursion, so this is proved by rewriting with its
equations rather than by kernel evaluation). -/
theorem dfsProtocol_chainABC :
    dfsProtocol [("A", .struct "A" ["B"]), ("B", .struct "B" ["C"]), ("C", .bitString "C")] 3 ["A"]
      = some ["C", "B", "A"] := by
  simp [dfsProtocol, dfsRoots, dfsPT, dfsList, lookupTy, List.lookup, dedupe]

/-- Witness for C2 at concrete names. -/
theorem c2_transitive_postorder_witness :
    ∃ l, dfsProtocol
        [("A", .struct "A" ["B"]), ("B", .struct "B" ["C"]), ("C", .bitString "C")] 3 ["A"]
        = some l ∧
      l = ["C", "B", "A"] ∧ l.count "C" = 1 ∧ l.count "B" = 1 ∧ l.count "A" = 1 :=
  c2_transitive_postorder "A" "B" "C" (by decide) (by decide) (by decide)

/-- C9: the dependency resolution of `dfs_protocol` is a pure function of
the protocol and the root set — it reads the registry, writes only a
fresh local `type_names` list, and so running it twice on the same
protocol with the same roots yields the same sequence (and the registry
the second run sees is the registry the first run saw). -/
theorem c9_idempotent (env : Env) (fuel : Nat) (roots : List String) (l₁ l₂ : List String)
    (h₁ : dfsProtocol env fuel roots = some l₁)
    (h₂ : dfsProtocol env fuel roots = some l₂) :
    l₁ = l₂ := by
  rw [h₁] at h₂
  exact Option.some.inj h₂

/-- Witness for C9 at a concrete protocol: both runs on the three-struct
chain yield the same list. -/
theorem c9_idempotent_witness :
    (["C", "B", "A"] : List String) = ["C", "B", "A"] :=
  c9_idempotent [("A", .struct "A" ["B"]), ("B", .struct "B" ["C"]), ("C", .bitString "C")]
    3 ["A"] ["C", "B", "A"] ["C", "B", "A"] dfsProtocol_chainABC dfsProtocol_chainABC

/-! Fuel monotonicity: a traversal that completes within some fuel bound
completes, with the same output, under any larger bound.  This lets the
fuel embedding quantify termination as existence of a sufficient bound. -/

theorem dfs_mono (env : Env) : ∀ f : Nat,
    (∀ p acc out, dfsPT env f p acc = some out → dfsPT env (f + 1) p acc = some out) ∧
    (∀ l acc out, dfsList env f l acc = some out → dfsList env (f + 1) l acc = some out) ∧
    (∀ l acc out, dfsParams env f l acc = some out → dfsParams env (f + 1) l acc = some out) := by
  intro f
  induction f with
  | zero =>
    refine ⟨?_, ?_, ?_⟩
    · intro p acc out h
      simp [dfsPT] at h
    · intro l acc out h
      cases l with
      | nil => simpa [dfsList] using h
      | cons t ts => simp [dfsList, dfsPT] at h
    · intro l
      induction l with
      | nil =>
        intro acc out h
        simpa [dfsParams] using h
      | cons p ps ihp =>
        intro acc out h
        simp only [dfsParams] at h ⊢
        by_cases hm : p ∈ acc
        · rw [if_pos hm] at h ⊢
          exact ihp acc out h
        · rw [if_neg hm] at h
          simp [dfsPT] at h
  | succ f ih =>
    obtain ⟨ihPT, ihL, ihP⟩ := ih
    have hPT : ∀ p acc out, dfsPT env (f + 1) p acc = some out → dfsPT env (f + 2) p acc = some out := by
      intro p acc out h
      match p with
      | none => simpa [dfsPT] using h
      | some (.bitString n) => simpa [dfsPT] using h
      | some (.struct n fs) =>
        simp only [dfsPT] at h ⊢
        obtain ⟨acc1, h1, hout⟩ := Option.map_eq_some'.mp h
        rw [ihL fs acc acc1 h1, Option.map_some', hout]
      | some (.array n e) =>
        simp only [dfsPT] at h ⊢
        obtain ⟨acc1, h1, hout⟩ := Option.map_eq_some'.mp h
        rw [ihPT (lookupTy env e) acc acc1 h1, Option.map_some', hout]
      | some (.enumTy n vs pf st) =>
        simp only [dfsPT] at h ⊢
        obtain ⟨acc1, h1, h2⟩ := Option.bind_eq_some.mp h
        obtain ⟨acc2, h3, h4⟩ := Option.bind_eq_some.mp h2
        obtain ⟨acc3, h5, hout⟩ := Option.map_eq_some'.mp h4
        rw [ihL vs acc acc1 h1, Option.some_bind,
          ihPT (pf.bind (lookupTy env)) (acc1 ++ [n]) acc2 h3, Option.some_bind,
          ihPT (st.bind (lookupTy env)) acc2 acc3 h5, Option.map_some', hout]
      | some (.funcTy n ps r) =>
        simp only [dfsPT] at h ⊢
        obtain ⟨acc1, h1, h2⟩ := Option.bind_eq_some.mp h
        rw [ihP ps acc acc1 h1, Option.some_bind]
        by_cases hr : r ∈ acc1
        · rw [if_pos hr] at h2 ⊢
          exact h2
        · rw [if_neg hr] at h2 ⊢
          obtain ⟨acc2, h3, hout⟩ := Option.map_eq_some'.mp h2
          rw [ihPT (lookupTy env r) acc1 acc2 h3, Option.map_some', hout]
    refine ⟨hPT, ?_, ?_⟩
    · intro l
      induction l with
      | nil =>
        intro acc out h
        simpa [dfsList] using h
      | cons t ts ihl =>
        intro acc out h
        simp only [dfsList] at h ⊢
        obtain ⟨acc1, h1, h2⟩ := Option.bind_eq_some.mp h
        rw [hPT (lookupTy env t) acc acc1 h1, Option.some_bind]
        exact ihl acc1 out h2
    · intro l
      induction l with
      | nil =>
        intro acc out h
        simpa [dfsParams] using h
      | cons p ps ihp =>
        intro acc out h
        simp only [dfsParams] at h ⊢
        by_cases hm : p ∈ acc
        · rw [if_pos hm] at h ⊢
          exact ihp acc out h
        · rw [if_neg hm] at h ⊢
          obtain ⟨acc1, h1, h2⟩ := Option.bind_eq_some.mp h
          rw [hPT (lookupTy env p) acc acc1 h1, Option.some_bind]
          exact ihp acc1 out h2

theorem dfsPT_mono_le (env : Env) (p : Option PTy) (acc out : List String)
    {f f' : Nat} (hff : f ≤ f') (h : dfsPT env f p acc = some out) :
    dfsPT env f' p acc = some out := by
  induction hff with
  | refl => exact h
  | step _ ih => exact (dfs_mono env _).1 _ _ _ ih

theorem dfsList_mono_le (env : Env) (l acc out : List String)
    {f f' : Nat} (hff : f ≤ f') (h : dfsList env f l acc = some out) :
    dfsList env f' l acc = some out := by
  induction hff with
  | refl => exact h
  | step _ ih => exact (dfs_mono env _).2.1 _ _ _ ih

theorem dfsParams_mono_le (env : Env) (l acc out : List String)
    {f f' : Nat} (hff : f ≤ f') (h : dfsParams env f l acc = some out) :
    dfsParams env f' l acc = some out := by
  induction hff with
  | refl => exact h
  | step _ ih => exact (dfs_mono env _).2.2 _ _ _ ih

/-- Acyclicity of the reference graph, expressed as a topological rank:
every reference edge goes from a type to one of strictly smaller rank.
For a finite graph this is equivalent to the absence of directed
cycles. -/
def rankOK (env : Env) (rank : String → Nat) : Prop :=
  ∀ p ∈ env, ∀ m ∈ succs p.2, rank m < rank p.1

theorem dfsPT_terminates (env : Env) (rank : String → Nat) (hr : rankOK env rank) :
    ∀ R : Nat, ∀ n pt, lookupTy env n = some pt → rank n ≤ R →
      ∀ acc, ∃ f out, dfsPT env f (some pt) acc = some out := by
  intro R
  induction R using Nat.strong_induction_on with
  | _ R IH =>
    intro n pt hlook hle acc
    have hchild : ∀ m, m ∈ succs pt → ∀ acc', ∃ f out, dfsPT env f (lookupTy env m) acc' = some out := by
      intro m hm acc'
      cases hlm : lookupTy env m with
      | none => exact ⟨1, acc', by simp [dfsPT]⟩
      | some ptm =>
        have hrm : rank m < rank n := hr (n, pt) (ProtoIR.mem_of_lookup_eq_some hlook) m hm
        obtain ⟨f, out, hf⟩ := IH (rank m) (lt_of_lt_of_le hrm hle) m ptm hlm (le_refl _) acc'
        exact ⟨f, out, hlm ▸ hf⟩
    have hoptchild : ∀ o : Option String, (∀ m, o = some m → m ∈ succs pt) → ∀ acc',
        ∃ f out, dfsPT env f (o.bind (lookupTy env)) acc' = some out := by
      intro o ho acc'
      cases o with
      | none => exact ⟨1, acc', by simp [dfsPT]⟩
      | some m => exact hchild m (ho m rfl) acc'
    have hlist : ∀ l : List String, (∀ m ∈ l, m ∈ succs pt) → ∀ acc',
        ∃ f out, dfsList env f l acc' = some out := by
      intro l
      induction l with
      | nil =>
        intro _ acc'
        exact ⟨0, acc', by simp [dfsList]⟩
      | cons t ts ihl =>
        intro hsub acc'
        obtain ⟨f₁, out₁, h₁⟩ := hchild t (hsub t (List.mem_cons_self _ _)) acc'
        obtain ⟨f₂, out₂, h₂⟩ := ihl (fun m hm => hsub m (List.mem_cons_of_mem _ hm)) out₁
        refine ⟨max f₁ f₂, out₂, ?_⟩
        simp only [dfsList]
        rw [dfsPT_mono_le env _ _ _ (le_max_left f₁ f₂) h₁, Option.some_bind]
        exact dfsList_mono_le env _ _ _ (le_max_right f₁ f₂) h₂
    have hparams : ∀ l : List String, (∀ m ∈ l, m ∈ succs pt) → ∀ acc',
        ∃ f out, dfsParams env f l acc' = some out := by
      intro l
      induction l with
      | nil =>
        intro _ acc'
        exact ⟨0, acc', by simp [dfsParams]⟩
      | cons p ps ihp =>
        intro hsub acc'
        by_cases hm : p ∈ acc'
        · obtain ⟨f₂, out₂, h₂⟩ := ihp (fun m hm2 => hsub m (List.mem_cons_of_mem _ hm2)) acc'
          refine ⟨f₂, out₂, ?_⟩
          simp only [dfsParams]
          rw [if_pos hm]
          exact h₂
        · obtain ⟨f₁, out₁, h₁⟩ := hchild p (hsub p (List.mem_cons_self _ _)) acc'
          obtain ⟨f₂, out₂, h₂⟩ := ihp (fun m hm2 => hsub m (List.mem_cons_of_mem _ hm2)) out₁
          refine ⟨max f₁ f₂, out₂, ?_⟩
          simp only [dfsParams]
          rw [if_neg hm, dfsPT_mono_le env _ _ _ (le_max_left f₁ f₂) h₁, Option.some_bind]
          exact dfsParams_mono_le env _ _ _ (le_max_right f₁ f₂) h₂
    match pt with
    | .bitString nn => exact ⟨1, acc ++ [nn], by simp [dfsPT]⟩
    | .struct nn fs =>
      obtain ⟨f₁, out₁, h₁⟩ := hlist fs (fun m hm => by simpa [succs] using hm) acc
      refine ⟨f₁ + 1, out₁ ++ [nn], ?_⟩
      simp only [dfsPT]
      rw [h₁, Option.map_some']
    | .array nn e =>
      obtain ⟨f₁, out₁, h₁⟩ := hchild e (by simp [succs]) acc
      refine ⟨f₁ + 1, out₁ ++ [nn], ?_⟩
      simp only [dfsPT]
      rw [h₁, Option.map_some']
    | .enumTy nn vs pf st =>
      obtain ⟨f₁, out₁, h₁⟩ := hlist vs (fun m hm => by simp [succs, hm]) acc
      obtain ⟨f₂, out₂, h₂⟩ := hoptchild pf (fun m hm => by simp [succs, hm]) (out₁ ++ [nn])
      obtain ⟨f₃, out₃, h₃⟩ := hoptchild st (fun m hm => by simp [succs, hm]) out₂
      refine ⟨max f₁ (max f₂ f₃) + 1, out₃ ++ [nn], ?_⟩
      simp only [dfsPT]
      rw [dfsList_mono_le env _ _ _ (le_max_left _ _) h₁, Option.some_bind,
        dfsPT_mono_le env _ _ _ (le_trans (le_max_left _ _) (le_max_right f₁ _)) h₂, Option.some_bind,
        dfsPT_mono_le env _ _ _ (le_trans (le_max_right _ _) (le_max_right f₁ _)) h₃, Option.map_some']
    | .funcTy nn ps r =>
      obtain ⟨f₁, out₁, h₁⟩ := hparams ps (fun m hm => by simp [succs, hm]) acc
      by_cases hrm : r ∈ out₁
      · refine ⟨f₁ + 1, out₁ ++ [nn], ?_⟩
        simp only [dfsPT]
        rw [dfsParams_mono_le env _ _ _ (le_refl f₁) h₁, Option.some_bind, if_pos hrm,
          Option.map_some']
      · obtain ⟨f₂, out₂, h₂⟩ := hchild r (by simp [succs]) out₁
        refine ⟨max f₁ f₂ + 1, out₂ ++ [nn], ?_⟩
        simp only [dfsPT]
        rw [dfsParams_mono_le env _ _ _ (le_max_left f₁ f₂) h₁, Option.some_bind, if_neg hrm,
          dfsPT_mono_le env _ _ _ (le_max_right f₁ f₂) h₂, Option.map_some']

theorem dfsRoots_mono_le (env : Env) (roots : List String) (acc out : List String)
    {f f' : Nat} (hff : f ≤ f') (h : dfsRoots env f roots acc = some out) :
    dfsRoots env f' roots acc = some out := by
  induction roots generalizing acc with
  | nil => simpa [dfsRoots] using h
  | cons r rs ihr =>
    simp only [dfsRoots] at h ⊢
    obtain ⟨acc1, h1, h2⟩ := Option.bind_eq_some.mp h
    rw [dfsPT_mono_le env _ _ _ hff h1, Option.some_bind]
    exact ihr acc1 h2

theorem dfsRoots_terminates (env : Env) (rank : String → Nat) (hr : rankOK env rank) :
    ∀ roots acc, ∃ f out, dfsRoots env f roots acc = some out := by
  intro roots
  induction roots with
  | nil => exact fun acc => ⟨0, acc, by simp [dfsRoots]⟩
  | cons r rs ihr =>
    intro acc
    have h1 : ∃ f out, dfsPT env f (lookupTy env r) acc = some out := by
      cases hlr : lookupTy env r with
      | none => exact ⟨1, acc, by simp [dfsPT]⟩
      | some ptr =>
        obtain ⟨f, out, hf⟩ := dfsPT_terminates env rank hr (rank r) r ptr hlr (le_refl _) acc
        exact ⟨f, out, hlr ▸ hf⟩
    obtain ⟨f₁, out₁, hf₁⟩ := h1
    obtain ⟨f₂, out₂, hf₂⟩ := ihr out₁
    refine ⟨max f₁ f₂, out₂, ?_⟩
    simp only [dfsRoots]
    rw [dfsPT_mono_le env _ _ _ (le_max_left f₁ f₂) hf₁, Option.some_bind]
    exact dfsRoots_mono_le env _ _ _ (le_max_right f₁ f₂) hf₂

theorem dfsPT_selfloop (nm : String) : ∀ f acc,
    dfsPT [(nm, PTy.struct nm [nm])] f (some (PTy.struct nm [nm])) acc = none := by
  intro f
  induction f with
  | zero => intro acc; simp [dfsPT]
  | succ g ihg =>
    intro acc
    have hl : dfsList [(nm, PTy.struct nm [nm])] g [nm] acc = none := by
      simp only [dfsList, lookupTy, List.lookup, beq_self_eq_true]
      rw [ihg acc]
      rfl
    simp only [dfsPT, hl, Option.map_none']

theorem dfsProtocol_selfloop (nm : String) :
    ∀ f, dfsProtocol [(nm, PTy.struct nm [nm])] f [nm] = none := by
  intro f
  simp only [dfsProtocol, dfsRoots, lookupTy, List.lookup, beq_self_eq_true]
  rw [dfsPT_selfloop nm f []]
  rfl

/-- The C3 counterexample protocol: an enum `E` whose parse-from function
`F` takes `E` and returns `E` — the reference graph has the cycle
`E → F → E` (spec section 4.5: an enum depends on its parse-from
conversion, a function on its parameter and return types), reachable from
the root `E`. -/
def envEF : Env :=
  [("E", .enumTy "E" [] (some "F") none), ("F", .funcTy "F" ["E"] "E")]

/-- C3 counterexample: the claim that a reachable reference cycle always
makes the traversal non-terminating is false.  `dfs_enum` appends the
enum's name *before* visiting its parse-from reference, and
`dfs_function` skips parameter and return types whose names are already
in `type_names`, so the cycle `E → F → E` is cut and the traversal
terminates with `[E, F]`. -/
theorem c3_counterexample :
    lookupTy envEF "E" = some (.enumTy "E" [] (some "F") none) ∧
    "F" ∈ succs (PTy.enumTy "E" [] (some "F") none) ∧
    lookupTy envEF "F" = some (.funcTy "F" ["E"] "E") ∧
    "E" ∈ succs (PTy.funcTy "F" ["E"] "E") ∧
    dfsProtocol envEF 3 ["E"] = some ["E", "F"] := by
  refine ⟨by decide, by decide, by decide, by decide, ?_⟩
  simp [dfsProtocol, dfsRoots, dfsPT, dfsList, dfsParams, lookupTy, List.lookup, dedupe, envEF]

/-- C3 amended: when the reference graph admits a topological rank
(equivalently, the reachable graph is acyclic), the traversal terminates
— some fuel bound suffices — and returns a sequence; a cycle traversed
through the unguarded edges does not terminate, exhibited by the direct
struct self-reference, which exhausts every fuel bound; but a cycle
re-entered only through `dfs_function`'s already-seen guard can
terminate, as the counterexample shows, so non-termination is not implied
by every reachable cycle. -/
theorem c3_amended (env : Env) (roots : List String) (rank : String → Nat)
    (hr : rankOK env rank) :
    (∃ f l, dfsProtocol env f roots = some l) ∧
    (∀ nm f, dfsProtocol [(nm, PTy.struct nm [nm])] f [nm] = none) := by
  constructor
  · obtain ⟨f, out, hf⟩ := dfsRoots_terminates env rank hr roots []
    exact ⟨f, dedupe out, by simp [dfsProtocol, hf]⟩
  · exact fun nm f => dfsProtocol_selfloop nm f

/-- The rank certifying the three-type chain acyclic. -/
def rankABC : String → Nat :=
  fun n => if n = "A" then 2 else if n = "B" then 1 else 0

/-- Witness for C3 at concrete inputs: the acyclic three-type chain
terminates for some fuel, and the self-referential struct `Z` exhausts
every fuel bound. -/
theorem c3_amended_witness :
    (∃ f l, dfsProtocol [("A", PTy.struct "A" ["B"]), ("B", PTy.struct "B" ["C"]),
        ("C", PTy.bitString "C")] f ["A"] = some l) ∧
    (∀ f, dfsProtocol [("Z", PTy.struct "Z" ["Z"])] f ["Z"] = none) := by
  have h := c3_amended
    [("A", PTy.struct "A" ["B"]), ("B", PTy.struct "B" ["C"]), ("C", PTy.bitString "C")]
    ["A"] rankABC (by unfold rankOK; decide)
  exact ⟨h.1, fun f => h.2 "Z" f⟩

end ProtoDFS

namespace ProtoIR

/-- C7: resolving any expression record with an enclosing type that is not
a structure type fails with the scope error (`_parse_expression` raises
before looking at the record), and resolving `This` with an enclosing
struct type `S` yields the `This` expression bound to `S`, whose static
type is exactly `S` (types are identified by their registry names). -/
theorem c7_scope_and_this (s : PState) (this : TypeV) (e : IRExpr) :
    (this.kind ≠ "Struct" → parseExpression s this e = .error .scopeError) ∧
    (this.kind = "Struct" →
      parseExpression s this .thisE = Except.ok (.thisExpr this.name) ∧
      exprType s (.thisExpr this.name) = some this.name) := by
  constructor
  · intro h
    rw [parseExpression.eq_def]
    simp [h]
  · intro h
    rw [parseExpression.eq_def]
    simp [h, exprType, pure, Except.pure]

/-- Witness for C7 at concrete inputs: a `BitString`-kinded enclosing type
is rejected, and `This` inside a freshly inserted struct resolves to that
struct. -/
theorem c7_scope_and_this_witness :
    parseExpression mkProtocol (mkBare "W" "BitString" 0 1) .thisE = .error .scopeError ∧
    parseExpression mkProtocol (structShell mkProtocol "W") .thisE
      = Except.ok (.thisExpr "W") := by
  refine ⟨(c7_scope_and_this mkProtocol (mkBare "W" "BitString" 0 1) .thisE).1 (by decide), ?_⟩
  exact ((c7_scope_and_this mkProtocol (structShell mkProtocol "W") .thisE).2 (by decide)).1

/-- The registry used as the C4 counterexample: a protocol whose type map
holds an entry under a lexically malformed name.  (The public `define_*`
interface never produces such a state — every registered type name has
passed the validator — which is why the duplicate-check-first order of
`_validate_irtype` is unobservable through the interface.) -/
def sBadC4 : PState :=
  { mkProtocol with types := insertA mkProtocol.types "bad name" (mkBare "bad name" "BitString" 100 101) }

/-- C4 counterexample: `_validate_irtype` tests `name in self._types`
before the lexical check, so a malformed name that is already registered
fails with the duplicate error, not the malformed-name error — the claim
asserts the opposite order. -/
theorem c4_counterexample :
    isTypeName "bad name" = false ∧
    ((sBadC4.types.lookup "bad name").isSome = true) ∧
    (defineBitString sBadC4 { construct := "BitString", name := "bad name", size := 1 }).2
      = some (.alreadyExists "bad name") ∧
    (defineBitString sBadC4 { construct := "BitString", name := "bad name", size := 1 }).2
      ≠ some (.malformedName "bad name") := by
  refine ⟨by decide, by decide, by decide, by decide⟩

/-- C4 amended: in `_validate_irtype` (and its copy in `define_function`)
the duplicate-name check precedes the lexical check, so an
already-registered name fails with the duplicate error even when it is
malformed; a malformed name that is not yet registered fails with the
malformed-name error.  Since every name registered through the public
interface has passed the validator, the two checks never overlap on
reachable registries, where a malformed name therefore always yields the
malformed-name error. -/
theorem c4_amended (s : PState) :
    (∀ ir : BitStringIR, ir.construct = "BitString" → (s.types.lookup ir.name).isSome →
      defineBitString s ir = (s, some (.alreadyExists ir.name))) ∧
    (∀ ir : BitStringIR, ir.construct = "BitString" → s.types.lookup ir.name = none →
      isTypeName ir.name = false →
      defineBitString s ir = (s, some (.malformedName ir.name))) ∧
    (∀ ir : FunctionIR, ir.construct = "Function" → (s.funcs.lookup ir.name).isSome →
      defineFunction s ir = (s, some (.alreadyExists ir.name))) ∧
    (∀ ir : FunctionIR, ir.construct = "Function" → s.funcs.lookup ir.name = none →
      isFuncName ir.name = false →
      defineFunction s ir = (s, some (.malformedName ir.name))) := by
  refine ⟨?_, ?_, ?_, ?_⟩
  · intro ir hc hdup
    simp [defineBitString, validateIR, hc, hdup]
  · intro ir hc hdup hmal
    simp [defineBitString, validateIR, hc, hdup, hmal]
  · intro ir hc hdup
    simp [defineFunction, hc, hdup]
  · intro ir hc hdup hmal
    simp [defineFunction, hc, hdup, hmal]

theorem implementTraits_types (s : PState) (nm : String) (l : List String) :
    (implementTraits s nm l).1.types = s.types := by
  induction l generalizing s with
  | nil => rfl
  | cons n rest ih =>
    simp only [implementTraits]
    cases h : s.traits.lookup n with
    | none => rfl
    | some tr => exact ih (implementTrait s (typeVAt s nm) tr)

theorem implementTraits_funcs (s : PState) (nm : String) (l : List String) :
    (implementTraits s nm l).1.funcs = s.funcs := by
  induction l generalizing s with
  | nil => rfl
  | cons n rest ih =>
    simp only [implementTraits]
    cases h : s.traits.lookup n with
    | none => rfl
    | some tr => exact ih (implementTrait s (typeVAt s nm) tr)

theorem implementTraits_traits (s : PState) (nm : String) (l : List String) :
    (implementTraits s nm l).1.traits = s.traits := by
  induction l generalizing s with
  | nil => rfl
  | cons n rest ih =>
    simp only [implementTraits]
    cases h : s.traits.lookup n with
    | none => rfl
    | some tr => exact ih (implementTrait s (typeVAt s nm) tr)

theorem implementTraits_ok (s : PState) (nm : String) (l : List String)
    (h : ∀ n ∈ l, (s.traits.lookup n).isSome) :
    (implementTraits s nm l).2 = none := by
  induction l generalizing s with
  | nil => rfl
  | cons n rest ih =>
    simp only [implementTraits]
    cases hl : s.traits.lookup n with
    | none =>
      have := h n (List.mem_cons_self _ _)
      rw [hl] at this
      simp at this
    | some tr =>
      exact ih (implementTrait s (typeVAt s nm) tr) (fun m hm => h m (List.mem_cons_of_mem _ hm))

theorem mem_foldl_insertTraitName (l : List String) (cell : List String) (x : String) :
    x ∈ l.foldl insertTraitName cell ↔ x ∈ cell ∨ x ∈ l := by
  induction l generalizing cell with
  | nil => simp
  | cons t rest ih =>
    simp only [List.foldl_cons, ih, mem_insertTraitName, List.mem_cons]
    tauto

theorem implementTraits_run (s : PState) (nm : String) (l : List String) (d : TypeV) (cell : List String)
    (hd : s.types.lookup nm = some d)
    (hc : s.traitCells.lookup d.traitsRef = some cell)
    (htr : ∀ x ∈ l, ∃ tr, s.traits.lookup x = some tr ∧ tr.name = x) :
    ∃ s', implementTraits s nm l = (s', none) ∧
      s'.types = s.types ∧ s'.funcs = s.funcs ∧ s'.traits = s.traits ∧ s'.nextRef = s.nextRef ∧
      s'.traitCells.lookup d.traitsRef = some (l.foldl insertTraitName cell) ∧
      (∀ r, r ≠ d.traitsRef → s'.traitCells.lookup r = s.traitCells.lookup r) ∧
      (∀ r, r ≠ d.methodsRef → s'.methodCells.lookup r = s.methodCells.lookup r) := by
  induction l generalizing s cell with
  | nil =>
    exact ⟨s, rfl, rfl, rfl, rfl, rfl, hc, fun _ _ => rfl, fun _ _ => rfl⟩
  | cons x rest ih =>
    obtain ⟨tr, hx, hnm⟩ := htr x (List.mem_cons_self _ _)
    subst hnm
    have hty : typeVAt s nm = d := by rw [typeVAt, hd]; rfl
    have hstep : implementTraits s nm (tr.name :: rest)
        = implementTraits (implementTrait s d tr) nm rest := by
      simp only [implementTraits, hx, hty]
    have hc1 : (implementTrait s d tr).traitCells.lookup d.traitsRef
        = some (insertTraitName cell tr.name) := by
      simp only [implementTrait]
      exact lookup_updateA_self _ _ _ _ hc
    obtain ⟨s', hrun, htys, hfs, htrs, hnr, hcell, hframeT, hframeM⟩ :=
      ih (implementTrait s d tr) (insertTraitName cell tr.name) hd hc1
        (fun y hy => htr y (List.mem_cons_of_mem _ hy))
    refine ⟨s', hstep ▸ hrun, htys, hfs, htrs, hnr, ?_, ?_, ?_⟩
    · simpa using hcell
    · intro r hr
      rw [hframeT r hr]
      simp only [implementTrait]
      exact lookup_updateA_ne _ _ _ _ hr
    · intro r hr
      rw [hframeM r hr]
      simp only [implementTrait]
      exact lookup_updateA_ne _ _ _ _ hr

theorem defineBitString_err (s : PState) (ir : BitStringIR) (s' : PState) (e : Err)
    (hS : (s.traits.lookup "Sized").isSome) (hV : (s.traits.lookup "Value").isSome)
    (hE : (s.traits.lookup "Equality").isSome)
    (h : defineBitString s ir = (s', some e)) : s' = s := by
  unfold defineBitString at h
  split at h
  · cases h; rfl
  · have h2 := congrArg Prod.snd h
    rw [implementTraits_ok] at h2
    · exact Option.noConfusion h2
    · intro n hn
      fin_cases hn
      · exact hS
      · exact hV
      · exact hE

theorem defineArray_err (s : PState) (ir : ArrayIR) (s' : PState) (e : Err)
    (hS : (s.traits.lookup "Sized").isSome) (hE : (s.traits.lookup "Equality").isSome)
    (hI : (s.traits.lookup "IndexCollection").isSome)
    (h : defineArray s ir = (s', some e)) : s' = s := by
  unfold defineArray at h
  split at h
  · cases h; rfl
  · split at h
    · cases h; rfl
    · have h2 := congrArg Prod.snd h
      rw [implementTraits_ok] at h2
      · exact Option.noConfusion h2
      · intro n hn
        fin_cases hn
        · exact hS
        · exact hE
        · exact hI

theorem defineEnum_err (s : PState) (ir : EnumIR) (s' : PState) (e : Err)
    (hS : (s.traits.lookup "Sized").isSome)
    (h : defineEnum s ir = (s', some e)) : s' = s := by
  unfold defineEnum at h
  split at h
  · cases h; rfl
  · split at h
    · cases h; rfl
    · have h2 := congrArg Prod.snd h
      rw [implementTraits_ok] at h2
      · exact Option.noConfusion h2
      · intro n hn
        fin_cases hn
        exact hS

theorem defineFunction_err (s : PState) (ir : FunctionIR) (s' : PState) (e : Err)
    (h : defineFunction s ir = (s', some e)) : s' = s := by
  unfold defineFunction at h
  split at h
  · cases h; rfl
  · split at h
    · cases h; rfl
    · split at h
      · cases h; rfl
      · split at h
        · cases h; rfl
        · split at h
          · cases h; rfl
          · cases h

theorem defineStruct_err (s : PState) (ir : StructIR) (s' : PState) (e : Err)
    (hS : (s.traits.lookup "Sized").isSome) (hE : (s.traits.lookup "Equality").isSome)
    (h : defineStruct s ir = (s', some e)) :
    s'.funcs = s.funcs ∧ s'.traits = s.traits ∧
      (∀ k, k ≠ ir.name → s'.types.lookup k = s.types.lookup k) ∧
      (∀ e0, validateIR s ir.construct "Struct" ir.name = some e0 → s' = s) := by
  unfold defineStruct at h
  split at h
  · cases h
    exact ⟨rfl, rfl, fun k _ => rfl, fun _ _ => rfl⟩
  · rename_i hv
    split at h
    · cases h
      refine ⟨rfl, rfl, fun k hk => ?_, fun e0 h0 => absurd (hv ▸ h0) (by simp)⟩
      exact lookup_insertA_ne _ _ _ _ hk
    · split at h
      · cases h
        refine ⟨rfl, rfl, fun k hk => ?_, fun e0 h0 => absurd (hv ▸ h0) (by simp)⟩
        rw [withFields, structS1]
        simp only [addType]
        rw [lookup_updateA_ne _ _ _ _ hk]
        exact lookup_insertA_ne _ _ _ _ hk
      · split at h
        · cases h
          refine ⟨rfl, rfl, fun k hk => ?_, fun e0 h0 => absurd (hv ▸ h0) (by simp)⟩
          rw [withConstraints, withFields, structS1]
          simp only [addType]
          rw [lookup_updateA_ne _ _ _ _ hk, lookup_updateA_ne _ _ _ _ hk]
          exact lookup_insertA_ne _ _ _ _ hk
        · have h2 := congrArg Prod.snd h
          rw [implementTraits_ok] at h2
          · exact Option.noConfusion h2
          · intro n hn
            fin_cases hn
            · exact hS
            · exact hE

theorem deriveType_err (s : PState) (ir : NewTypeIR) (s' : PState) (e : Err)
    (h : deriveType s ir = (s', some e)) :
    s'.funcs = s.funcs ∧ s'.traits = s.traits ∧
      (∀ k, k ≠ ir.name → s'.types.lookup k = s.types.lookup k) ∧
      (∀ e0, validateIR s ir.construct "NewType" ir.name = some e0 → s' = s) := by
  unfold deriveType at h
  split at h
  · cases h
    exact ⟨rfl, rfl, fun k _ => rfl, fun _ _ => rfl⟩
  · rename_i hv
    split at h
    · cases h
      exact ⟨rfl, rfl, fun k _ => rfl, fun e0 h0 => absurd (hv ▸ h0) (by simp)⟩
    · rename_i orig horig
      have h1 : (implementTraits (deriveBase s ir.name orig) ir.name ir.implements).1 = s' :=
        congrArg Prod.fst h
      refine ⟨?_, ?_, fun k hk => ?_, fun e0 h0 => absurd (hv ▸ h0) (by simp)⟩
      · rw [← h1, implementTraits_funcs]; rfl
      · rw [← h1, implementTraits_traits]; rfl
      · rw [← h1, implementTraits_types, deriveBase]
        exact lookup_insertA_ne _ _ _ _ hk

/-- The C1 counterexample input: an empty-field struct whose single
constraint is the constant `2` of type `Size` — a well-formed record that
fails only at the constraint type check. -/
def irC1bad : StructIR :=
  { construct := "Struct"
    name := "A1"
    fields := []
    constraints := [IRExpr.constant "Size" Lit.null]
    actions := [] }

/-- C1 counterexample: a `define_struct` call that raises the
constraint-type error nevertheless leaves an entry for the failed struct
in the type map — `define_struct` registers the bare struct before
parsing its parts, so the failed call does partially register the entity,
contradicting the claim. -/
theorem c1_counterexample :
    (defineStruct mkProtocol irC1bad).2 = some (.constraintNotBoolean (some "Size")) ∧
    ((defineStruct mkProtocol irC1bad).1.types.lookup "A1").isSome = true := by
  exact ⟨by decide, by decide⟩

/-- C1 amended: a failing `define_bitstring`, `define_array`,
`define_enum` or `define_function` call leaves the registry exactly as it
was (all their checks precede registration).  A failing `define_struct`
or `derive_type` call leaves previously successful registrations intact —
the function and trait registries are untouched and every type entry
other than the new name is unchanged — and leaves the registry exactly
unchanged when the failure comes from the up-front `_validate_irtype`
checks; but a failure in a later phase (fields/constraints/actions for
`define_struct`, an unknown trait in `implements` for `derive_type`)
leaves the partially constructed new entry registered, as the
counterexample shows. -/
theorem c1_amended (s : PState)
    (hS : (s.traits.lookup "Sized").isSome) (hV : (s.traits.lookup "Value").isSome)
    (hE : (s.traits.lookup "Equality").isSome) (hI : (s.traits.lookup "IndexCollection").isSome) :
    (∀ ir s' e, defineBitString s ir = (s', some e) → s' = s) ∧
    (∀ ir s' e, defineArray s ir = (s', some e) → s' = s) ∧
    (∀ ir s' e, defineEnum s ir = (s', some e) → s' = s) ∧
    (∀ ir s' e, defineFunction s ir = (s', some e) → s' = s) ∧
    (∀ ir : StructIR, ∀ s' e, defineStruct s ir = (s', some e) →
      s'.funcs = s.funcs ∧ s'.traits = s.traits ∧
      (∀ k, k ≠ ir.name → s'.types.lookup k = s.types.lookup k) ∧
      (∀ e0, validateIR s ir.construct "Struct" ir.name = some e0 → s' = s)) ∧
    (∀ ir : NewTypeIR, ∀ s' e, deriveType s ir = (s', some e) →
      s'.funcs = s.funcs ∧ s'.traits = s.traits ∧
      (∀ k, k ≠ ir.name → s'.types.lookup k = s.types.lookup k) ∧
      (∀ e0, validateIR s ir.construct "NewType" ir.name = some e0 → s' = s)) :=
  ⟨fun ir s' e h => defineBitString_err s ir s' e hS hV hE h,
   fun ir s' e h => defineArray_err s ir s' e hS hE hI h,
   fun ir s' e h => defineEnum_err s ir s' e hS h,
   fun ir s' e h => defineFunction_err s ir s' e h,
   fun ir s' e h => defineStruct_err s ir s' e hS hE h,
   fun ir s' e h => deriveType_err s ir s' e h⟩

/-- Witness for C1 at concrete inputs: a duplicate-name `define_bitstring`
on the standard registry leaves it unchanged, and the failed
`define_struct` of the counterexample keeps every other entry intact. -/
theorem c1_amended_witness :
    (defineBitString mkProtocol { construct := "BitString", name := "Boolean", size := 1 }).1
      = mkProtocol ∧
    (defineStruct mkProtocol irC1bad).1.types.lookup "Size" = mkProtocol.types.lookup "Size" := by
  constructor
  · exact (c1_amended mkProtocol (by decide) (by decide) (by decide) (by decide)).1
      { construct := "BitString", name := "Boolean", size := 1 }
      (defineBitString mkProtocol { construct := "BitString", name := "Boolean", size := 1 }).1
      (.alreadyExists "Boolean") rfl
  · exact ((c1_amended mkProtocol (by decide) (by decide) (by decide) (by decide)).2.2.2.2.1
      irC1bad (defineStruct mkProtocol irC1bad).1
      (.constraintNotBoolean (some "Size")) rfl).2.2.1 "Size" (by decide)

/-- C8: defining an array over a previously defined element type whose
size is defined yields a registered type of size `element.size * length`
whose implemented-trait set is exactly `Sized`, `Equality`,
`IndexCollection` — three traits, in insertion order. -/
theorem c8_array_size_and_traits (s : PState) (ir : ArrayIR) (et : TypeV) (n : Nat)
    (hv : validateIR s ir.construct "Array" ir.name = none)
    (hel : s.types.lookup ir.elementType = some et)
    (hsz : et.size = some n)
    (_hpos : 0 < ir.length)
    (hS : s.traits.lookup "Sized" = some sizedTrait)
    (hE : s.traits.lookup "Equality" = some equalityTrait)
    (hI : s.traits.lookup "IndexCollection" = some indexCollectionTrait) :
    ∃ s' arr, defineArray s ir = (s', none) ∧
      s'.types.lookup ir.name = some arr ∧
      arr.size = some (n * ir.length) ∧
      s'.traitCells.lookup arr.traitsRef = some ["Sized", "Equality", "IndexCollection"] := by
  obtain ⟨s', hrun, htys, _, _, _, hcell, _, _⟩ :=
    implementTraits_run (addType s ir.name (arrayTypeV s ir et)) ir.name
      ["Sized", "Equality", "IndexCollection"] (arrayTypeV s ir et) []
      (by simp only [addType]; exact lookup_insertA_self _ _ _)
      (by simp only [addType]; exact lookup_insertA_self _ _ _)
      (by
        intro x hx
        fin_cases hx
        · exact ⟨sizedTrait, hS, rfl⟩
        · exact ⟨equalityTrait, hE, rfl⟩
        · exact ⟨indexCollectionTrait, hI, rfl⟩)
  refine ⟨s', arrayTypeV s ir et, ?_, ?_, ?_, ?_⟩
  · unfold defineArray
    rw [hv, hel]
    exact hrun
  · rw [htys]
    simp only [addType]
    exact lookup_insertA_self _ _ _
  · simp [arrayTypeV, hsz, mkBare]
  · rw [hcell]
    rfl

/-- The registry for the C8 witness: the standard protocol plus a 8-bit
`BitString` element type. -/
def c8Base : PState :=
  (defineBitString mkProtocol { construct := "BitString", name := "E8", size := 8 }).1

/-- Witness for C8 at concrete inputs: an array of four 8-bit strings has
size 32 and exactly the three required traits. -/
theorem c8_array_witness :
    ∃ s' arr,
      defineArray c8Base { construct := "Array", name := "Arr", elementType := "E8", length := 4 }
        = (s', none) ∧
      s'.types.lookup "Arr" = some arr ∧
      arr.size = some 32 ∧
      s'.traitCells.lookup arr.traitsRef = some ["Sized", "Equality", "IndexCollection"] :=
  c8_array_size_and_traits c8Base
    { construct := "Array", name := "Arr", elementType := "E8", length := 4 }
    (typeVAt c8Base "E8") 8 (by decide) (by rfl) (by rfl) (by decide)
    (by decide) (by decide) (by decide)

/-- C10: `define_struct` inserts the bare struct object into the type map
before fields, constraints and actions are parsed, so while they are being
resolved a lookup of the struct's own name already returns the struct
being defined, and a field whose declared type is the enclosing struct
itself is accepted: the call succeeds and registers a struct whose field
references the struct's own name. -/
theorem c10_self_reference (s : PState) (ir : StructIR) (f : FieldIR) (tn : String) (v : Lit)
    (hv : validateIR s ir.construct "Struct" ir.name = none)
    (hfs : ir.fields = [f])
    (hself : f.ftype = ir.name)
    (hfname : isFuncName f.name = true)
    (hip : f.isPresent = IRExpr.constant tn v)
    (htn : (s.types.lookup tn).isSome)
    (htrf : f.transform = none)
    (hcs : ir.constraints = [])
    (hacts : ir.actions = [])
    (hS : s.traits.lookup "Sized" = some sizedTrait)
    (hE : s.traits.lookup "Equality" = some equalityTrait) :
    (structS1 s ir.name).types.lookup ir.name = some (structShell s ir.name) ∧
    ∃ s' st, defineStruct s ir = (s', none) ∧
      s'.types.lookup ir.name = some st ∧
      st.kind = "Struct" ∧
      st.fields.map (fun fd => (fd.name, fd.ftype)) = [(f.name, ir.name)] := by
  have h1 : (structS1 s ir.name).types.lookup ir.name = some (structShell s ir.name) := by
    simp only [structS1, addType]
    exact lookup_insertA_self _ _ _
  have hftl : (structS1 s ir.name).types.lookup f.ftype = some (structShell s ir.name) := by
    rw [hself]; exact h1
  obtain ⟨w, hw⟩ : ∃ w, (structS1 s ir.name).types.lookup tn = some w := by
    by_cases htneq : tn = ir.name
    · subst htneq
      exact ⟨_, h1⟩
    · refine Option.isSome_iff_exists.mp ?_
      simp only [structS1, addType]
      exact lookup_insertA_isSome _ _ _ _ htn
  have hpe : parseExpression (structS1 s ir.name) (structShell s ir.name) f.isPresent
      = .ok (.constant tn v) := by
    rw [hip, parseExpression.eq_def]
    simp only [structShell, mkBare, hw]
    rfl
  have hpf : parseFields (structS1 s ir.name) (structShell s ir.name) ir.fields
      = .ok [{ name := f.name, ftype := f.ftype, isPresent := Expr.constant tn v, transform := none }] := by
    rw [hfs]
    simp only [parseFields, hfname, hftl, hpe, htrf, parseTransform]
    rfl
  set fv : FieldV := { name := f.name, ftype := f.ftype, isPresent := Expr.constant tn v, transform := none } with hfv
  have h2 := lookup_updateA_self (structS1 s ir.name).types ir.name
      (fun t => { t with fields := t.fields ++ [fv] }) _ h1
  have h3 := lookup_updateA_self (withFields (structS1 s ir.name) ir.name [fv]).types ir.name
      (fun t => { t with constraints := t.constraints ++ [] }) _ h2
  have h4 := lookup_updateA_self (withConstraints (withFields (structS1 s ir.name) ir.name [fv]) ir.name []).types ir.name
      (fun t => { t with actions := t.actions ++ [] }) _ h3
  obtain ⟨s', hrun, htys, _, _, _, _, _, _⟩ :=
    implementTraits_run
      (withActions (withConstraints (withFields (structS1 s ir.name) ir.name [fv]) ir.name []) ir.name [])
      ir.name ["Sized", "Equality"] _ []
      h4
      (by
        simp only [withActions, withConstraints, withFields, structS1, addType]
        exact lookup_insertA_self _ _ _)
      (by
        intro x hx
        fin_cases hx
        · exact ⟨sizedTrait, hS, rfl⟩
        · exact ⟨equalityTrait, hE, rfl⟩)
  refine ⟨h1, s',
    (fun t => { t with actions := t.actions ++ [] })
      ((fun t => { t with constraints := t.constraints ++ [] })
        ((fun t => { t with fields := t.fields ++ [fv] }) (structShell s ir.name))), ?_, ?_, ?_, ?_⟩
  · simp only [defineStruct, hv, hpf, hcs, hacts, parseConstraints, parseActions, pure, Except.pure,
      withFields, withConstraints, withActions]
    exact hrun
  · rw [htys]
    exact h4
  · rfl
  · simp [structShell, mkBare, hself]

theorem parseConstraints_nonBoolean (s : PState) (this : TypeV) (cs : List IRExpr)
    (hB : (s.types.lookup "Boolean").isSome)
    (hall : ∀ c ∈ cs, ∃ e, parseExpression s this c = .ok e)
    (hbad : ∃ c ∈ cs, ∀ e, parseExpression s this c = .ok e → exprType s e ≠ some "Boolean") :
    ∃ t, parseConstraints s this cs = .error (.constraintNotBoolean t) ∧ t ≠ some "Boolean" := by
  induction cs with
  | nil => simp at hbad
  | cons c rest ih =>
    obtain ⟨e, he⟩ := hall c (List.mem_cons_self _ _)
    obtain ⟨bw, hbw⟩ := Option.isSome_iff_exists.mp hB
    by_cases hty : exprType s e = some "Boolean"
    · obtain ⟨c0, hc0mem, hc0⟩ := hbad
      have hc0rest : c0 ∈ rest := by
        rcases List.mem_cons.mp hc0mem with h | h
        · subst h
          exact absurd hty (hc0 e he)
        · exact h
      obtain ⟨t, hrec, hne⟩ := ih (fun x hx => hall x (List.mem_cons_of_mem _ hx)) ⟨c0, hc0rest, hc0⟩
      refine ⟨t, ?_, hne⟩
      simp only [parseConstraints, he, hbw, bind, Except.bind, hty]
      simp only [ne_eq, not_true_eq_false, if_false, hrec]
    · refine ⟨exprType s e, ?_, hty⟩
      simp only [parseConstraints, he, hbw, bind, Except.bind]
      rw [if_pos hty]

theorem parseActions_nonNothing (s : PState) (this : TypeV) (as_ : List IRExpr)
    (hN : (s.types.lookup "Nothing").isSome)
    (hall : ∀ a ∈ as_, ∃ e, parseExpression s this a = .ok e)
    (hbad : ∃ a ∈ as_, ∀ e, parseExpression s this a = .ok e → exprType s e ≠ some "Nothing") :
    ∃ t, parseActions s this as_ = .error (.actionNotNothing t) ∧ t ≠ some "Nothing" := by
  induction as_ with
  | nil => simp at hbad
  | cons a rest ih =>
    obtain ⟨e, he⟩ := hall a (List.mem_cons_self _ _)
    obtain ⟨bw, hbw⟩ := Option.isSome_iff_exists.mp hN
    by_cases hty : exprType s e = some "Nothing"
    · obtain ⟨a0, ha0mem, ha0⟩ := hbad
      have ha0rest : a0 ∈ rest := by
        rcases List.mem_cons.mp ha0mem with h | h
        · subst h
          exact absurd hty (ha0 e he)
        · exact h
      obtain ⟨t, hrec, hne⟩ := ih (fun x hx => hall x (List.mem_cons_of_mem _ hx)) ⟨a0, ha0rest, ha0⟩
      refine ⟨t, ?_, hne⟩
      simp only [parseActions, he, hbw, bind, Except.bind, hty]
      simp only [ne_eq, not_true_eq_false, if_false, hrec]
    · refine ⟨exprType s e, ?_, hty⟩
      simp only [parseActions, he, hbw, bind, Except.bind]
      rw [if_pos hty]

/-- C6: a `define_struct` call one of whose constraints resolves to a
static type other than `Boolean` fails with the constraint type-mismatch
error, and one of whose actions resolves to a static type other than
`Nothing` fails with the action type-mismatch error (given that the
phases before the offending one succeed — otherwise their own error is
raised first).  The enclosing state and type of each phase are the
registry and struct object as `define_struct` has built them so far. -/
theorem c6_constraint_action_typecheck (s : PState) (ir : StructIR) (fs : List FieldV)
    (hv : validateIR s ir.construct "Struct" ir.name = none)
    (hpf : parseFields (structS1 s ir.name) (structShell s ir.name) ir.fields = .ok fs) :
    ((((withFields (structS1 s ir.name) ir.name fs).types.lookup "Boolean").isSome) →
     (∀ c ∈ ir.constraints, ∃ e, parseExpression (withFields (structS1 s ir.name) ir.name fs)
        { structShell s ir.name with fields := fs } c = .ok e) →
     (∃ c ∈ ir.constraints, ∀ e, parseExpression (withFields (structS1 s ir.name) ir.name fs)
        { structShell s ir.name with fields := fs } c = .ok e →
        exprType (withFields (structS1 s ir.name) ir.name fs) e ≠ some "Boolean") →
     ∃ t, (defineStruct s ir).2 = some (.constraintNotBoolean t) ∧ t ≠ some "Boolean") ∧
    (∀ cs, parseConstraints (withFields (structS1 s ir.name) ir.name fs)
        { structShell s ir.name with fields := fs } ir.constraints = .ok cs →
     (((withConstraints (withFields (structS1 s ir.name) ir.name fs) ir.name cs).types.lookup "Nothing").isSome) →
     (∀ a ∈ ir.actions, ∃ e, parseExpression (withConstraints (withFields (structS1 s ir.name) ir.name fs) ir.name cs)
        { structShell s ir.name with fields := fs, constraints := cs } a = .ok e) →
     (∃ a ∈ ir.actions, ∀ e, parseExpression (withConstraints (withFields (structS1 s ir.name) ir.name fs) ir.name cs)
        { structShell s ir.name with fields := fs, constraints := cs } a = .ok e →
        exprType (withConstraints (withFields (structS1 s ir.name) ir.name fs) ir.name cs) e ≠ some "Nothing") →
     ∃ t, (defineStruct s ir).2 = some (.actionNotNothing t) ∧ t ≠ some "Nothing") := by
  constructor
  · intro hB hall hbad
    obtain ⟨t, herr, hne⟩ := parseConstraints_nonBoolean _ _ _ hB hall hbad
    refine ⟨t, ?_, hne⟩
    simp only [defineStruct, hv, hpf, herr]
  · intro cs hcs hN hall hbad
    obtain ⟨t, herr, hne⟩ := parseActions_nonNothing _ _ _ hN hall hbad
    refine ⟨t, ?_, hne⟩
    simp only [defineStruct, hv, hpf, hcs, herr]

/-- The C6 witness inputs: a struct whose constraint is a `Size`-typed
constant, and a struct whose action is a `Boolean`-typed constant. -/
def irC6c : StructIR :=
  { construct := "Struct"
    name := "A6"
    fields := []
    constraints := [IRExpr.constant "Size" Lit.null]
    actions := [] }

def irC6a : StructIR :=
  { construct := "Struct"
    name := "B6"
    fields := []
    constraints := []
    actions := [IRExpr.constant "Boolean" (Lit.str "True")] }

/-- Witness for C6 at concrete inputs: a `Size`-typed constraint raises
the constraint type-mismatch error, and a `Boolean`-typed action raises
the action type-mismatch error. -/
theorem c6_constraint_action_typecheck_witness :
    (∃ t, (defineStruct mkProtocol irC6c).2 = some (.constraintNotBoolean t) ∧ t ≠ some "Boolean") ∧
    (∃ t, (defineStruct mkProtocol irC6a).2 = some (.actionNotNothing t) ∧ t ≠ some "Nothing") := by
  constructor
  · refine (c6_constraint_action_typecheck mkProtocol irC6c [] (by decide) (by rfl)).1
      (by decide) ?_ ?_
    · intro c hc
      cases hc with
      | head => exact ⟨Expr.constant "Size" Lit.null, rfl⟩
      | tail _ h => cases h
    · refine ⟨IRExpr.constant "Size" Lit.null, by simp [irC6c], ?_⟩
      intro e he
      have : Expr.constant "Size" Lit.null = e := Except.ok.inj he
      subst this
      decide
  · refine (c6_constraint_action_typecheck mkProtocol irC6a [] (by decide) (by rfl)).2
      [] (by rfl) (by decide) ?_ ?_
    · intro a ha
      cases ha with
      | head => exact ⟨Expr.constant "Boolean" (Lit.str "True"), rfl⟩
      | tail _ h => cases h
    · refine ⟨IRExpr.constant "Boolean" (Lit.str "True"), by simp [irC6a], ?_⟩
      intro e he
      have : Expr.constant "Boolean" (Lit.str "True") = e := Except.ok.inj he
      subst this
      decide

theorem validateIR_none (s : PState) (c k nm : String) (h : validateIR s c k nm = none) :
    c = k ∧ s.types.lookup nm = none ∧ isTypeName nm = true := by
  unfold validateIR at h
  split_ifs at h with h1 h2 h3
  exact ⟨not_not.mp h1, Option.not_isSome_iff_eq_none.mp h2, h3⟩

/-- C5: `derive_type` registers a derived type that is structurally the
base type with a new name, whose trait set is the base's traits united
with the requested extra traits, held in freshly allocated cells; the
base's trait cell and method cell are untouched by the derivation, and
subsequently growing the derived type's capability set with any further
trait leaves the base's trait set and method table unchanged.  The
hypotheses `b.traitsRef < s.nextRef` and `b.methodsRef < s.nextRef` say
the base's cells are previously allocated ones, as they are for every
type created by the registry. -/
theorem c5_derive_independent (s : PState) (ir : NewTypeIR) (b : TypeV)
    (bT : List String) (bM : List MethodSig)
    (hv : validateIR s ir.construct "NewType" ir.name = none)
    (hb : s.types.lookup ir.derivedFrom = some b)
    (hbT : s.traitCells.lookup b.traitsRef = some bT)
    (hbM : s.methodCells.lookup b.methodsRef = some bM)
    (hrefT : b.traitsRef < s.nextRef) (hrefM : b.methodsRef < s.nextRef)
    (htr : ∀ x ∈ ir.implements, ∃ tr, s.traits.lookup x = some tr ∧ tr.name = x) :
    ∃ s' d, deriveType s ir = (s', none) ∧
      s'.types.lookup ir.name = some d ∧
      d.kind = b.kind ∧
      (∃ dT, s'.traitCells.lookup d.traitsRef = some dT ∧
        ∀ x, x ∈ dT ↔ x ∈ bT ∨ x ∈ ir.implements) ∧
      s'.types.lookup ir.derivedFrom = some b ∧
      s'.traitCells.lookup b.traitsRef = some bT ∧
      s'.methodCells.lookup b.methodsRef = some bM ∧
      ∀ tr : TraitDef,
        (implementTrait s' d tr).traitCells.lookup b.traitsRef = some bT ∧
        (implementTrait s' d tr).methodCells.lookup b.methodsRef = some bM := by
  have hneq : ir.derivedFrom ≠ ir.name := by
    intro h
    rw [h, (validateIR_none _ _ _ _ hv).2.1] at hb
    exact Option.noConfusion hb
  have hTne : b.traitsRef ≠ s.nextRef := Nat.ne_of_lt hrefT
  have hMne : b.methodsRef ≠ s.nextRef + 1 := Nat.ne_of_lt (Nat.lt_succ_of_lt hrefM)
  have hd1 : (deriveBase s ir.name b).types.lookup ir.name
      = some { b with name := ir.name, traitsRef := s.nextRef, methodsRef := s.nextRef + 1 } := by
    simp only [deriveBase]
    exact lookup_insertA_self _ _ _
  have hc1 : (deriveBase s ir.name b).traitCells.lookup s.nextRef = some bT := by
    simp only [deriveBase]
    rw [lookup_insertA_self, hbT]
    rfl
  obtain ⟨s', hrun, htys, _, _, _, hcell, hframeT, hframeM⟩ :=
    implementTraits_run (deriveBase s ir.name b) ir.name ir.implements
      { b with name := ir.name, traitsRef := s.nextRef, methodsRef := s.nextRef + 1 } bT
      hd1 hc1 htr
  have hbT' : s'.traitCells.lookup b.traitsRef = some bT := by
    rw [hframeT b.traitsRef hTne]
    simp only [deriveBase]
    rw [lookup_insertA_ne _ _ _ _ hTne]
    exact hbT
  have hbM' : s'.methodCells.lookup b.methodsRef = some bM := by
    rw [hframeM b.methodsRef hMne]
    simp only [deriveBase]
    rw [lookup_insertA_ne _ _ _ _ hMne]
    exact hbM
  refine ⟨s', { b with name := ir.name, traitsRef := s.nextRef, methodsRef := s.nextRef + 1 },
    ?_, ?_, rfl, ⟨_, hcell, ?_⟩, ?_, hbT', hbM', ?_⟩
  · unfold deriveType
    rw [hv, hb]
    exact hrun
  · rw [htys]
    exact hd1
  · intro x
    exact mem_foldl_insertTraitName _ _ _
  · rw [htys]
    simp only [deriveBase]
    rw [lookup_insertA_ne _ _ _ _ hneq]
    exact hb
  · intro tr
    constructor
    · simp only [implementTrait]
      rw [lookup_updateA_ne _ _ _ _ hTne]
      exact hbT'
    · simp only [implementTrait]
      rw [lookup_updateA_ne _ _ _ _ hMne]
      exact hbM'

/-- The registry for the C5 witness: the standard protocol plus a 16-bit
`BitString` base type. -/
def c5Base : PState :=
  (defineBitString mkProtocol { construct := "BitString", name := "Bits16", size := 16 }).1

/-- Witness for C5 at concrete inputs: deriving `SeqNum` from `Bits16`
with the extra `Ordinal` trait yields the union trait set, and further
growing `SeqNum`'s traits leaves `Bits16`'s cells unchanged. -/
theorem c5_derive_independent_witness :
    ∃ s' d,
      deriveType c5Base
        { construct := "NewType", name := "SeqNum", derivedFrom := "Bits16", implements := ["Ordinal"] }
        = (s', none) ∧
      s'.types.lookup "SeqNum" = some d ∧
      d.kind = "BitString" ∧
      (∃ dT, s'.traitCells.lookup d.traitsRef = some dT ∧
        ∀ x, x ∈ dT ↔ x ∈ ["Sized", "Value", "Equality"] ∨ x ∈ ["Ordinal"]) ∧
      s'.types.lookup "Bits16" = some (typeVAt c5Base "Bits16") ∧
      s'.traitCells.lookup (typeVAt c5Base "Bits16").traitsRef = some ["Sized", "Value", "Equality"] ∧
      s'.methodCells.lookup (typeVAt c5Base "Bits16").methodsRef
        = some (valueTrait.methods.foldl insertMethod
            (sizedTrait.methods.foldl insertMethod [])
            |> fun cell => equalityTrait.methods.foldl insertMethod cell) ∧
      ∀ tr : TraitDef,
        (implementTrait s' d tr).traitCells.lookup (typeVAt c5Base "Bits16").traitsRef
          = some ["Sized", "Value", "Equality"] ∧
        (implementTrait s' d tr).methodCells.lookup (typeVAt c5Base "Bits16").methodsRef
          = some (valueTrait.methods.foldl insertMethod
              (sizedTrait.methods.foldl insertMethod [])
              |> fun cell => equalityTrait.methods.foldl insertMethod cell) :=
  c5_derive_independent c5Base
    { construct := "NewType", name := "SeqNum", derivedFrom := "Bits16", implements := ["Ordinal"] }
    (typeVAt c5Base "Bits16") ["Sized", "Value", "Equality"] _
    (by decide) (by rfl) (by decide) (by rfl) (by decide) (by decide)
    (by
      intro x hx
      fin_cases hx
      exact ⟨ordinalTrait, by decide, rfl⟩)

/-- The C10 witness input: a struct whose single field's declared type is
the struct itself. -/
def irC10 : StructIR :=
  { construct := "Struct"
    name := "S10"
    fields := [{ name := "next", ftype := "S10",
                 isPresent := IRExpr.constant "Boolean" (Lit.str "True"), transform := none }]
    constraints := []
    actions := [] }

/-- Witness for C10 at a concrete input: the self-referential struct
`S10` is constructible through `define_struct` on the standard registry. -/
theorem c10_self_reference_witness :
    ∃ s' st, defineStruct mkProtocol irC10 = (s', none) ∧
      s'.types.lookup "S10" = some st ∧
      st.kind = "Struct" ∧
      st.fields.map (fun fd => (fd.name, fd.ftype)) = [("next", "S10")] :=
  (c10_self_reference mkProtocol irC10
    { name := "next", ftype := "S10",
      isPresent := IRExpr.constant "Boolean" (Lit.str "True"), transform := none }
    "Boolean" (Lit.str "True")
    (by decide) rfl rfl (by decide) rfl (by decide) rfl rfl rfl (by decide) (by decide)).2

/-- Witness for C4 at concrete inputs: on the standard registry, a fresh
malformed type name is rejected as malformed, and a duplicate of the
registered `Boolean` is rejected as duplicate. -/
theorem c4_amended_witness :
    defineBitString mkProtocol { construct := "BitString", name := "bad name", size := 1 }
      = (mkProtocol, some (.malformedName "bad name")) ∧
    defineBitString mkProtocol { construct := "BitString", name := "Boolean", size := 1 }
      = (mkProtocol, some (.alreadyExists "Boolean")) := by
  constructor
  · exact (c4_amended mkProtocol).2.1 _ (by decide) (by rfl) (by decide)
  · exact (c4_amended mkProtocol).1 _ (by decide) (by decide)

end ProtoIR
